import Mathlib

/-!
Verification of the hook dispatch engine of the `mcp-tcl-udf-server`
repository against its natural-language specification.

The Rust sources are shallowly embedded: pure functions become Lean
functions, the stateful dispatch loop (`HookManager::execute` in
`src/hooks/manager.rs`) becomes explicit state passing over a `FireState`
record, machine integers become `Nat`/`Int` (no arithmetic in these claims
can overflow the source's `u64`/`u128` types at the modelled scales), and
fallible code returns `Except`.  External library boundaries
(`serde_json::from_str`, the base64 engine, `regex`, `jsonschema`, the
system clock) are modelled as explicit function parameters, mirroring the
spec's own list of external collaborators.  Durations and timestamps are
modelled as `Nat` (nanoseconds / abstract instants).
-/

namespace Hooks

/-- `serde_json::Value`.  JSON numbers are modelled as integers (none of
the verified claims exercises non-integral numerics); objects are
association lists searched front-to-back, matching the key-lookup
behaviour of `serde_json::Map`. -/
inductive Json where
  | null
  | bool (b : Bool)
  | num (n : Int)
  | str (s : String)
  | arr (elems : List Json)
  | obj (fields : List (String × Json))

mutual

def Json.decEq : (a b : Json) → Decidable (a = b)
  | .null, .null => isTrue rfl
  | .bool a, .bool b =>
    match (inferInstance : Decidable (a = b)) with
    | isTrue h => isTrue (h ▸ rfl)
    | isFalse h => isFalse (fun he => h (Json.bool.inj he))
  | .num a, .num b =>
    match (inferInstance : Decidable (a = b)) with
    | isTrue h => isTrue (h ▸ rfl)
    | isFalse h => isFalse (fun he => h (Json.num.inj he))
  | .str a, .str b =>
    match (inferInstance : Decidable (a = b)) with
    | isTrue h => isTrue (h ▸ rfl)
    | isFalse h => isFalse (fun he => h (Json.str.inj he))
  | .arr a, .arr b =>
    match Json.decEqList a b with
    | isTrue h => isTrue (h ▸ rfl)
    | isFalse h => isFalse (fun he => h (Json.arr.inj he))
  | .obj a, .obj b =>
    match Json.decEqFields a b with
    | isTrue h => isTrue (h ▸ rfl)
    | isFalse h => isFalse (fun he => h (Json.obj.inj he))
  | .null, .bool _ => isFalse (fun h => Json.noConfusion h)
  | .null, .num _ => isFalse (fun h => Json.noConfusion h)
  | .null, .str _ => isFalse (fun h => Json.noConfusion h)
  | .null, .arr _ => isFalse (fun h => Json.noConfusion h)
  | .null, .obj _ => isFalse (fun h => Json.noConfusion h)
  | .bool _, .null => isFalse (fun h => Json.noConfusion h)
  | .bool _, .num _ => isFalse (fun h => Json.noConfusion h)
  | .bool _, .str _ => isFalse (fun h => Json.noConfusion h)
  | .bool _, .arr _ => isFalse (fun h => Json.noConfusion h)
  | .bool _, .obj _ => isFalse (fun h => Json.noConfusion h)
  | .num _, .null => isFalse (fun h => Json.noConfusion h)
  | .num _, .bool _ => isFalse (fun h => Json.noConfusion h)
  | .num _, .str _ => isFalse (fun h => Json.noConfusion h)
  | .num _, .arr _ => isFalse (fun h => Json.noConfusion h)
  | .num _, .obj _ => isFalse (fun h => Json.noConfusion h)
  | .str _, .null => isFalse (fun h => Json.noConfusion h)
  | .str _, .bool _ => isFalse (fun h => Json.noConfusion h)
  | .str _, .num _ => isFalse (fun h => Json.noConfusion h)
  | .str _, .arr _ => isFalse (fun h => Json.noConfusion h)
  | .str _, .obj _ => isFalse (fun h => Json.noConfusion h)
  | .arr _, .null => isFalse (fun h => Json.noConfusion h)
  | .arr _, .bool _ => isFalse (fun h => Json.noConfusion h)
  | .arr _, .num _ => isFalse (fun h => Json.noConfusion h)
  | .arr _, .str _ => isFalse (fun h => Json.noConfusion h)
  | .arr _, .obj _ => isFalse (fun h => Json.noConfusion h)
  | .obj _, .null => isFalse (fun h => Json.noConfusion h)
  | .obj _, .bool _ => isFalse (fun h => Json.noConfusion h)
  | .obj _, .num _ => isFalse (fun h => Json.noConfusion h)
  | .obj _, .str _ => isFalse (fun h => Json.noConfusion h)
  | .obj _, .arr _ => isFalse (fun h => Json.noConfusion h)

def Json.decEqList : (a b : List Json) → Decidable (a = b)
  | [], [] => isTrue rfl
  | [], _ :: _ => isFalse (fun h => List.noConfusion h)
  | _ :: _, [] => isFalse (fun h => List.noConfusion h)
  | x :: xs, y :: ys =>
    match Json.decEq x y, Json.decEqList xs ys with
    | isTrue h1, isTrue h2 => isTrue (h1 ▸ h2 ▸ rfl)
    | isFalse h1, _ => isFalse (fun he => h1 (List.cons.inj he).1)
    | _, isFalse h2 => isFalse (fun he => h2 (List.cons.inj he).2)

def Json.decEqFields : (a b : List (String × Json)) → Decidable (a = b)
  | [], [] => isTrue rfl
  | [], _ :: _ => isFalse (fun h => List.noConfusion h)
  | _ :: _, [] => isFalse (fun h => List.noConfusion h)
  | (k1, v1) :: xs, (k2, v2) :: ys =>
    match (inferInstance : Decidable (k1 = k2)), Json.decEq v1 v2,
        Json.decEqFields xs ys with
    | isTrue h1, isTrue h2, isTrue h3 => isTrue (h1 ▸ h2 ▸ h3 ▸ rfl)
    | isFalse h1, _, _ =>
      isFalse (fun he => h1 (congrArg Prod.fst (List.cons.inj he).1))
    | _, isFalse h2, _ =>
      isFalse (fun he => h2 (congrArg Prod.snd (List.cons.inj he).1))
    | _, _, isFalse h3 => isFalse (fun he => h3 (List.cons.inj he).2)

end

instance : DecidableEq Json := Json.decEq

/-- Key lookup in a JSON object field list (first match, as in
`serde_json::Map::get`). -/
def getField : List (String × Json) → String → Option Json
  | [], _ => none
  | (k, v) :: rest, key => if k = key then some v else getField rest key

/-- `serde_json::Map::insert`: replace the value of an existing key in
place, otherwise add the binding.  (The B-tree map's key ordering is not
observable through `get`, so the association list keeps bindings where
they first appeared.) -/
def setField : List (String × Json) → String → Json → List (String × Json)
  | [], key, v => [(key, v)]
  | (k, w) :: rest, key, v =>
    if k = key then (k, v) :: rest else (k, w) :: setField rest key v

/-- `serde_json::Map::remove`. -/
def removeField : List (String × Json) → String → List (String × Json)
  | [], _ => []
  | (k, w) :: rest, key =>
    if k = key then rest else (k, w) :: removeField rest key

/-- `Value::get(key)`: `None` on anything that is not an object. -/
def Json.get : Json → String → Option Json
  | .obj fields, key => getField fields key
  | _, _ => none

def Json.as_str : Json → Option String
  | .str s => some s
  | _ => none

def Json.as_array : Json → Option (List Json)
  | .arr l => some l
  | _ => none

def Json.as_object : Json → Option (List (String × Json))
  | .obj l => some l
  | _ => none

def Json.as_bool : Json → Option Bool
  | .bool b => some b
  | _ => none

/-- `Value::as_u64`. -/
def Json.as_u64 : Json → Option Nat
  | .num n => if 0 ≤ n then some n.toNat else none
  | _ => none

/-- `Value::as_f64`; numbers are modelled as integers. -/
def Json.as_f64 : Json → Option Int
  | .num n => some n
  | _ => none

def Json.isObj : Json → Bool
  | .obj _ => true
  | _ => false

/-- `HookType` (`src/hooks/types.rs`): the closed set of lifecycle points
plus the open `custom:<name>` variant. -/
inductive HookType where
  | serverStartup
  | serverShutdown
  | serverInitialized
  | requestReceived
  | requestProcessed
  | responseSent
  | toolPreExecution
  | toolPostExecution
  | toolRegistered
  | toolRemoved
  | tclPreExecution
  | tclPostExecution
  | tclError
  | mcpServerConnected
  | mcpServerDisconnected
  | mcpServerError
  | securityCheck
  | accessDenied
  | custom (name : String)
deriving DecidableEq

/-- `HookType::all_builtin`. -/
def HookType.all_builtin : List HookType :=
  [.serverStartup, .serverShutdown, .serverInitialized,
   .requestReceived, .requestProcessed, .responseSent,
   .toolPreExecution, .toolPostExecution, .toolRegistered, .toolRemoved,
   .tclPreExecution, .tclPostExecution, .tclError,
   .mcpServerConnected, .mcpServerDisconnected, .mcpServerError,
   .securityCheck, .accessDenied]

/-- `HookType::to_string` (`src/hooks/tools.rs`): lower-snake-case names,
`custom:` + name for the open variant. -/
def HookType.to_string : HookType → String
  | .serverStartup => "server_startup"
  | .serverShutdown => "server_shutdown"
  | .serverInitialized => "server_initialized"
  | .requestReceived => "request_received"
  | .requestProcessed => "request_processed"
  | .responseSent => "response_sent"
  | .toolPreExecution => "tool_pre_execution"
  | .toolPostExecution => "tool_post_execution"
  | .toolRegistered => "tool_registered"
  | .toolRemoved => "tool_removed"
  | .tclPreExecution => "tcl_pre_execution"
  | .tclPostExecution => "tcl_post_execution"
  | .tclError => "tcl_error"
  | .mcpServerConnected => "mcp_server_connected"
  | .mcpServerDisconnected => "mcp_server_disconnected"
  | .mcpServerError => "mcp_server_error"
  | .securityCheck => "security_check"
  | .accessDenied => "access_denied"
  | .custom s => "custom:" ++ s

/-- `s.starts_with("custom:")`, spelled out on the character list so that
it reduces in the kernel. -/
def customPrefixed (s : String) : Bool :=
  decide (s.data.take 7 = "custom:".data)

/-- `s[7..]` for the `custom:` case. -/
def dropCustomTag (s : String) : String :=
  String.mk (s.data.drop 7)

/-- `HookType::from_string` (`src/hooks/tools.rs`): the 18 built-in names,
then the `custom:` prefix, then a typed parse error. -/
def HookType.from_string (s : String) : Except String HookType :=
  if s = "server_startup" then .ok .serverStartup
  else if s = "server_shutdown" then .ok .serverShutdown
  else if s = "server_initialized" then .ok .serverInitialized
  else if s = "request_received" then .ok .requestReceived
  else if s = "request_processed" then .ok .requestProcessed
  else if s = "response_sent" then .ok .responseSent
  else if s = "tool_pre_execution" then .ok .toolPreExecution
  else if s = "tool_post_execution" then .ok .toolPostExecution
  else if s = "tool_registered" then .ok .toolRegistered
  else if s = "tool_removed" then .ok .toolRemoved
  else if s = "tcl_pre_execution" then .ok .tclPreExecution
  else if s = "tcl_post_execution" then .ok .tclPostExecution
  else if s = "tcl_error" then .ok .tclError
  else if s = "mcp_server_connected" then .ok .mcpServerConnected
  else if s = "mcp_server_disconnected" then .ok .mcpServerDisconnected
  else if s = "mcp_server_error" then .ok .mcpServerError
  else if s = "security_check" then .ok .securityCheck
  else if s = "access_denied" then .ok .accessDenied
  else if customPrefixed s then .ok (.custom (dropCustomTag s))
  else .error ("Invalid hook type: " ++ s)

/-- `ExecutionResult` (`src/hooks/types.rs`), the flow-control vocabulary
returned by every handler. -/
inductive ExecutionResult where
  | continue_
  | stop (data : Option Json)
  | replace (data : Json)
  | retry (delay : Option Nat) (max_attempts : Option Nat)
  | error (message : String) (details : Option Json)
deriving DecidableEq

/-- `HookError` (`src/hooks/errors.rs`).  The boxed `source` of
`ExecutionFailed` and the payloads of the serialization/IO variants are
modelled by their rendered messages. -/
inductive HookError where
  | handlerNotFound (name : String)
  | executionFailed (handler : String) (source : String)
  | timeout (handler : String) (duration : Nat)
  | invalidConfiguration (msg : String)
  | securityViolation (msg : String)
  | rateLimitExceeded (handler : String) (limit : Nat) (window : Nat)
  | resourceLimitExceeded (msg : String)
  | serializationError (msg : String)
  | ioError (msg : String)
  | registrationFailed (msg : String)
  | notInitialized
  | custom (msg : String)
deriving DecidableEq

/-- The `Display` rendering of `HookError` (durations rendered as their
numeric value; the manager only ever forwards the rendered text into
lifecycle `Failed` events). -/
def HookError.render : HookError → String
  | .handlerNotFound name => "Hook handler not found: " ++ name
  | .executionFailed handler source =>
    "Hook handler '" ++ handler ++ "' execution failed: " ++ source
  | .timeout handler duration =>
    "Hook handler '" ++ handler ++ "' timed out after " ++ toString duration
  | .invalidConfiguration msg => "Invalid configuration: " ++ msg
  | .securityViolation msg => "Security violation: " ++ msg
  | .rateLimitExceeded handler limit window =>
    "Rate limit exceeded for handler '" ++ handler ++ "': " ++
      toString limit ++ " calls per " ++ toString window
  | .resourceLimitExceeded msg => "Resource limit exceeded: " ++ msg
  | .serializationError msg => "Serialization error: " ++ msg
  | .ioError msg => "IO error: " ++ msg
  | .registrationFailed msg => "Handler registration failed: " ++ msg
  | .notInitialized => "Hook system not initialized"
  | .custom msg => msg

def HookError.isExecutionFailed : HookError → Bool
  | .executionFailed _ _ => true
  | _ => false

/-- `HookStats` (`src/hooks/types.rs`): rolling per-handler counters.
Durations in nanoseconds; `last_execution` is the abstract wall-clock
instant passed in for `Utc::now()`. -/
structure HookStats where
  total_executions : Nat := 0
  successful_executions : Nat := 0
  failed_executions : Nat := 0
  average_duration : Option Nat := none
  max_duration : Option Nat := none
  last_execution : Option Nat := none
deriving DecidableEq

instance : Inhabited HookStats := ⟨{}⟩

/-- `HookStats::update_duration_stats`: cumulative mean (integer division,
as in the source's `u128` arithmetic) and running maximum. -/
def HookStats.update_duration_stats (s : HookStats) (duration : Nat) : HookStats :=
  let s1 :=
    match s.average_duration with
    | some avg =>
      let total_nanos := avg * (s.total_executions - 1)
      let new_total := total_nanos + duration
      { s with average_duration := some (new_total / s.total_executions) }
    | none => { s with average_duration := some duration }
  match s1.max_duration with
  | some mx =>
    if duration > mx then { s1 with max_duration := some duration } else s1
  | none => { s1 with max_duration := some duration }

/-- `HookStats::record_success` (`now` models `Utc::now()`). -/
def HookStats.record_success (s : HookStats) (duration now : Nat) : HookStats :=
  let s1 := { s with
    total_executions := s.total_executions + 1,
    successful_executions := s.successful_executions + 1,
    last_execution := some now }
  s1.update_duration_stats duration

/-- `HookStats::record_failure`. -/
def HookStats.record_failure (s : HookStats) (duration now : Nat) : HookStats :=
  let s1 := { s with
    total_executions := s.total_executions + 1,
    failed_executions := s.failed_executions + 1,
    last_execution := some now }
  s1.update_duration_stats duration

/-- `RateLimit` (`src/hooks/manager.rs`): sliding-window state.  Instants
and the window are `Nat`; `now.duration_since(t)` is truncated
subtraction, matching `Instant` arithmetic for the monotone clocks the
manager feeds it. -/
structure RateLimit where
  max_calls : Nat
  window : Nat
  calls : List Nat
deriving DecidableEq

/-- `RateLimit::new`. -/
def RateLimit.new (max_calls window : Nat) : RateLimit :=
  { max_calls := max_calls, window := window, calls := [] }

/-- `RateLimit::check_and_update`: retain timestamps with
`now.duration_since(t) < window`, admit iff fewer than `max_calls`
remain, push `now` on admission. -/
def RateLimit.check_and_update (rl : RateLimit) (now : Nat) : Bool × RateLimit :=
  let kept := rl.calls.filter (fun t => now - t < rl.window)
  if kept.length < rl.max_calls then
    (true, { rl with calls := kept ++ [now] })
  else
    (false, { rl with calls := kept })

end Hooks

namespace Hooks

/-- The behaviour of one registered handler, abstracted at the
`AsyncHookHandler` trait boundary (`src/hooks/handler.rs`).  A handler
observes the payload's current `data`; its `execute` either completes
with an `ExecutionResult`, completes with a `HookError`, or fails to
complete within the manager's global timeout (`timedOut`). -/
inductive HandlerOutcome where
  | ok (r : ExecutionResult)
  | err (e : HookError)
  | timedOut

structure HandlerSpec where
  shouldRun : Json → Bool
  exec : Json → HandlerOutcome
  /-- the elapsed wall-clock duration `start.elapsed()` observed for this
  invocation -/
  duration : Json → Nat

/-- `HandlerEntry` (`src/hooks/manager.rs`). -/
structure HandlerEntry where
  handler : HandlerSpec
  priority : Nat
  stats : HookStats
  enabled : Bool
  rate_limit : Option RateLimit

/-- Lookup in the `entries: DashMap<String, HandlerEntry>` map. -/
def lookupEntry : List (String × HandlerEntry) → String → Option HandlerEntry
  | [], _ => none
  | (k, e) :: rest, name => if k = name then some e else lookupEntry rest name

/-- In-place mutation through `entries.get_mut(name)`. -/
def updateEntry :
    List (String × HandlerEntry) → String → HandlerEntry →
    List (String × HandlerEntry)
  | [], _, _ => []
  | (k, e) :: rest, name, e' =>
    if k = name then (k, e') :: rest else (k, e) :: updateEntry rest name e'

/-- Lookup in the `handlers: DashMap<HookType, Vec<String>>` index. -/
def lookupNames :
    List (HookType × List String) → HookType → Option (List String)
  | [], _ => none
  | (t, l) :: rest, ht => if t = ht then some l else lookupNames rest ht

/-- `handlers.entry(t).or_insert_with(Vec::new)` followed by writing the
updated list back. -/
def setNames :
    List (HookType × List String) → HookType → List String →
    List (HookType × List String)
  | [], ht, l => [(ht, l)]
  | (t, l0) :: rest, ht, l =>
    if t = ht then (t, l) :: rest else (t, l0) :: setNames rest ht l

/-- Lifecycle events emitted through `HookLifecycle`
(`src/hooks/lifecycle.rs`); the `failed` event carries the rendered error
message, as in `lifecycle.failed(&name, e.to_string())`. -/
inductive LifeEvent where
  | skipped (handler : String)
  | pre (handler : String)
  | executing (handler : String)
  | post (handler : String)
  | failed (handler : String) (error : String)
deriving DecidableEq

/-- One `ExecutionHistory` record (`record_history`). -/
structure HistEntry where
  hook_type : HookType
  handler : String
  duration : Nat
  result : String
deriving DecidableEq

/-- The mutable state visible to one fire of `HookManager::execute`:
the entry map plus the observable output streams.  `trace` records the
`ExecutionResult` of each handler that ran to completion, in execution
order — the information a lifecycle observer can reconstruct from the
`Post` events; it instruments the embedding and never influences
control flow. -/
structure FireState where
  entries : List (String × HandlerEntry)
  events : List LifeEvent
  history : List HistEntry
  trace : List ExecutionResult

def FireState.ofEntries (entries : List (String × HandlerEntry)) : FireState :=
  { entries := entries, events := [], history := [], trace := [] }

/-- Outcome of one iteration of the `for handler_name in handler_names`
loop body: either fall through to the next handler with the (possibly
replaced) data, or leave the loop with a final result. -/
inductive StepOut where
  | proceed (data : Json) (st : FireState)
  | halt (r : Except HookError Json) (st : FireState)

/-- The part of the loop body from the `should_run` check onward
(`src/hooks/manager.rs` lines 222-279): emit `Pre`/`Executing`, run the
handler under the global timeout, record stats/lifecycle/history, then
interpret the `ExecutionResult`. -/
def runHandler (gt now : Nat) (ht : HookType) (n : String) (e : HandlerEntry)
    (data : Json) (st : FireState) : StepOut :=
  if e.handler.shouldRun data = false then
    .proceed data { st with events := st.events ++ [.skipped n] }
  else
    let st1 : FireState :=
      { st with events := st.events ++ [LifeEvent.pre n, LifeEvent.executing n] }
    let dur := e.handler.duration data
    match e.handler.exec data with
    | .ok r =>
      let st2 := { st1 with
        entries := updateEntry st1.entries n
          { e with stats := e.stats.record_success dur now },
        events := st1.events ++ [LifeEvent.post n],
        history := st1.history ++ [HistEntry.mk ht n dur "success"],
        trace := st1.trace ++ [r] }
      match r with
      | .continue_ => .proceed data st2
      | .stop d => .halt (.ok (d.getD data)) st2
      | .replace d => .proceed d st2
      | .retry _ _ => .proceed data st2
      | .error msg _ => .halt (.error (.executionFailed n msg)) st2
    | .err e0 =>
      let st2 := { st1 with
        entries := updateEntry st1.entries n
          { e with stats := e.stats.record_failure dur now },
        events := st1.events ++ [LifeEvent.failed n e0.render],
        history := st1.history ++ [HistEntry.mk ht n dur "error"] }
      .halt (.error e0) st2
    | .timedOut =>
      let err := HookError.timeout n gt
      let st2 := { st1 with
        entries := updateEntry st1.entries n
          { e with stats := e.stats.record_failure dur now },
        events := st1.events ++ [LifeEvent.failed n err.render],
        history := st1.history ++ [HistEntry.mk ht n dur "timeout"] }
      .halt (.error err) st2

/-- One full iteration of the loop body of `HookManager::execute`:
entry lookup (skip on racy unregister), enabled check, rate-limit check,
then `runHandler`. -/
def execStep (gt now : Nat) (ht : HookType) (n : String) (data : Json)
    (st : FireState) : StepOut :=
  match lookupEntry st.entries n with
  | none => .proceed data st
  | some e0 =>
    if e0.enabled = false then
      .proceed data { st with events := st.events ++ [.skipped n] }
    else
      match e0.rate_limit with
      | some rl =>
        let res := rl.check_and_update now
        let e1 := { e0 with rate_limit := some res.2 }
        let st1 := { st with entries := updateEntry st.entries n e1 }
        if res.1 = false then
          .halt (.error (.rateLimitExceeded n rl.max_calls rl.window)) st1
        else
          runHandler gt now ht n e1 data st1
      | none => runHandler gt now ht n e0 data st

/-- The `for handler_name in handler_names` loop of
`HookManager::execute`, over the snapshot of the sorted name list. -/
def execLoop (gt now : Nat) (ht : HookType) :
    List String → Json → FireState → (Except HookError Json) × FireState
  | [], data, st => (.ok data, st)
  | n :: rest, data, st =>
    match execStep gt now ht n data st with
    | .proceed d' st' => execLoop gt now ht rest d' st'
    | .halt r st' => (r, st')

/-- `HookManager` (`src/hooks/manager.rs`). -/
structure HookManager where
  handlers : List (HookType × List String)
  entries : List (String × HandlerEntry)
  global_timeout : Nat
  enabled : Bool

/-- `HookManager::new` (the 5-second default timeout in nanoseconds). -/
def HookManager.new : HookManager :=
  { handlers := [], entries := [], global_timeout := 5000000000, enabled := true }

/-- `HookManager::execute`: if disabled return the data unchanged,
otherwise snapshot the name list for the hook type and run the loop.
`now` models the instants sampled during this fire. -/
def HookManager.execute (m : HookManager) (now : Nat) (ht : HookType)
    (data : Json) : (Except HookError Json) × FireState :=
  if m.enabled = false then (.ok data, FireState.ofEntries m.entries)
  else
    let names := (lookupNames m.handlers ht).getD []
    execLoop m.global_timeout now ht names data (FireState.ofEntries m.entries)

/-- Rust's `sort_by_key` is a stable sort; a stable sort's output is
uniquely determined, so it is embedded as insertion sort: each element is
inserted after every element whose key is less than or equal to its
own. -/
def insertByKey (key : String → Nat) (x : String) : List String → List String
  | [] => [x]
  | y :: ys =>
    if key y ≤ key x then y :: insertByKey key x ys else x :: y :: ys

def sortByKey (key : String → Nat) (l : List String) : List String :=
  l.foldl (fun acc x => insertByKey key x acc) []

/-- The priority key used by `register`'s re-sort:
`entries.get(h).map(|e| e.priority).unwrap_or(NORMAL)`. -/
def priorityKey (entries : List (String × HandlerEntry)) (n : String) : Nat :=
  ((lookupEntry entries n).map (·.priority)).getD 500

/-- `HookManager::register`: reject duplicate names, append the entry,
then push the name onto each hook type's list and re-sort that list by
priority. -/
def HookManager.register (m : HookManager) (name : String)
    (hook_types : List HookType) (h : HandlerSpec) (priority : Nat) :
    Except HookError HookManager :=
  if (lookupEntry m.entries name).isSome then
    .error (.registrationFailed ("Handler '" ++ name ++ "' already registered"))
  else
    let entries' := m.entries ++
      [(name, { handler := h, priority := priority, stats := {},
                enabled := true, rate_limit := none })]
    let handlers' := hook_types.foldl
      (fun hs ht =>
        let cur := (lookupNames hs ht).getD []
        setNames hs ht (sortByKey (priorityKey entries') (cur ++ [name])))
      m.handlers
    .ok { m with entries := entries', handlers := handlers' }

/-- `HookManager::set_rate_limit`. -/
def HookManager.set_rate_limit (m : HookManager) (name : String)
    (max_calls window : Nat) : Except HookError HookManager :=
  match lookupEntry m.entries name with
  | some e =>
    .ok { m with entries :=
            (updateEntry m.entries name
              { e with rate_limit := some (RateLimit.new max_calls window) }) }
  | none => .error (.handlerNotFound name)

/-- `HookManager::set_handler_enabled`. -/
def HookManager.set_handler_enabled (m : HookManager) (name : String)
    (enabled : Bool) : Except HookError HookManager :=
  match lookupEntry m.entries name with
  | some e =>
    .ok { m with entries :=
            (updateEntry m.entries name { e with enabled := enabled }) }
  | none => .error (.handlerNotFound name)

end Hooks

namespace Hooks

/-- `str::trim`, spelled out on the character list so that it reduces in
the kernel (Rust trims Unicode whitespace; the claims only exercise ASCII
whitespace). -/
def trimStr (s : String) : String :=
  String.mk
    (((s.data.dropWhile Char.isWhitespace).reverse.dropWhile
        Char.isWhitespace).reverse)

/-- `ExternalCommandHandler::parse_output`
(`src/hooks/handlers/external_handler.rs`).  `from_str` is the
`serde_json::from_str::<Value>` boundary: `none` when the text is not
valid JSON.  `stderr` only feeds the non-zero-exit error message (its
logging side effect has no observable value). -/
def parse_output (name : String) (from_str : String → Option Json)
    (stdout stderr : String) (exit_code : Int) :
    Except HookError ExecutionResult :=
  if exit_code ≠ 0 then
    .ok (.error ("Command exited with code " ++ toString exit_code ++ ": " ++ stderr)
      (some (.obj [("exit_code", .num exit_code), ("stderr", .str stderr)])))
  else
    match from_str stdout with
    | some json_result =>
      match (json_result.get "type").bind Json.as_str with
      | some result_type =>
        if result_type = "continue" then .ok .continue_
        else if result_type = "stop" then .ok (.stop (json_result.get "data"))
        else if result_type = "replace" then
          match json_result.get "data" with
          | some d => .ok (.replace d)
          | none => .error (.executionFailed name "Replace result missing 'data' field")
        else if result_type = "error" then
          let message := ((json_result.get "message").bind Json.as_str).getD "Unknown error"
          let details := (json_result.get "code").map (fun c => Json.obj [("code", c)])
          .ok (.error message details)
        else .ok (.replace json_result)
      | none => .ok (.replace json_result)
    | none =>
      let output := trimStr stdout
      if output = "" ∨ output = "ok" ∨ output = "continue" then .ok .continue_
      else .ok (.replace (.str output))

/-- `TclScriptHandler::parse_result` (`src/hooks/handlers/tcl_handler.rs`). -/
def parse_result (name : String) (from_str : String → Option Json)
    (tcl_result : String) : Except HookError ExecutionResult :=
  match from_str tcl_result with
  | some json_result =>
    match (json_result.get "type").bind Json.as_str with
    | some result_type =>
      if result_type = "continue" then .ok .continue_
      else if result_type = "stop" then .ok (.stop (json_result.get "data"))
      else if result_type = "replace" then
        match json_result.get "data" with
        | some d => .ok (.replace d)
        | none => .error (.executionFailed name "Replace result missing 'data' field")
      else if result_type = "error" then
        let message := ((json_result.get "message").bind Json.as_str).getD "Unknown error"
        let details := (json_result.get "code").map (fun c => Json.obj [("code", c)])
        .ok (.error message details)
      else .ok (.replace json_result)
    | none => .ok (.replace json_result)
  | none =>
    if trimStr tcl_result = "" ∨ trimStr tcl_result = "ok" then .ok .continue_
    else .ok (.replace (.str tcl_result))

/-- `BuiltInConfig`: the `{handler_name, config}` record every built-in
handler reads. -/
structure BuiltInConfig where
  handler_name : String
  config : List (String × Json)

/-- The `base64::engine::general_purpose::STANDARD` boundary.  `decode`
returns `none` both on a decode error and on invalid UTF-8 in the decoded
bytes; the transform op keeps the original value in either case. -/
structure B64Engine where
  encode : String → String
  decode : String → Option String

namespace TransformHandler

def rename_field (data t : Json) : Except HookError Json :=
  .ok (match (t.get "from").bind Json.as_str, (t.get "to").bind Json.as_str with
    | some f, some to_ =>
      (match data with
        | .obj fields =>
          (match getField fields f with
            | some v => .obj (setField (removeField fields f) to_ v)
            | none => .obj fields)
        | d => d)
    | _, _ => data)

def remove_field (data t : Json) : Except HookError Json :=
  .ok (match (t.get "field").bind Json.as_str with
    | some f =>
      (match data with
        | .obj fields => .obj (removeField fields f)
        | d => d)
    | none => data)

def add_field (data t : Json) : Except HookError Json :=
  .ok (match (t.get "field").bind Json.as_str, t.get "value" with
    | some f, some v =>
      (match data with
        | .obj fields => .obj (setField fields f v)
        | d => d)
    | _, _ => data)

def base64_encode (b64 : B64Engine) (data t : Json) : Except HookError Json :=
  .ok (match (t.get "field").bind Json.as_str with
    | some f =>
      (match data with
        | .obj fields =>
          (match getField fields f with
            | some (.str s) => .obj (setField fields f (.str (b64.encode s)))
            | _ => .obj fields)
        | d => d)
    | none => data)

def base64_decode (b64 : B64Engine) (data t : Json) : Except HookError Json :=
  .ok (match (t.get "field").bind Json.as_str with
    | some f =>
      (match data with
        | .obj fields =>
          (match getField fields f with
            | some (.str s) =>
              (match b64.decode s with
                | some decoded => .obj (setField fields f (.str decoded))
                | none => .obj fields)
            | _ => .obj fields)
        | d => d)
    | none => data)

def lowercase (data t : Json) : Except HookError Json :=
  .ok (match (t.get "field").bind Json.as_str with
    | some f =>
      (match data with
        | .obj fields =>
          (match getField fields f with
            | some (.str s) => .obj (setField fields f (.str s.toLower))
            | _ => .obj fields)
        | d => d)
    | none => data)

def uppercase (data t : Json) : Except HookError Json :=
  .ok (match (t.get "field").bind Json.as_str with
    | some f =>
      (match data with
        | .obj fields =>
          (match getField fields f with
            | some (.str s) => .obj (setField fields f (.str s.toUpper))
            | _ => .obj fields)
        | d => d)
    | none => data)

/-- `truncate`: the guard compares the byte length (`s.len()`), the cut
takes characters (`s.chars().take(n)`), as in the source. -/
def truncate (data t : Json) : Except HookError Json :=
  .ok (match (t.get "field").bind Json.as_str, (t.get "length").bind Json.as_u64 with
    | some f, some len =>
      (match data with
        | .obj fields =>
          (match getField fields f with
            | some (.str s) =>
              if s.utf8ByteSize > len
              then .obj (setField fields f (.str (String.mk (s.data.take len))))
              else .obj fields
            | _ => .obj fields)
        | d => d)
    | _, _ => data)

def redact (data t : Json) : Except HookError Json :=
  .ok (match (t.get "field").bind Json.as_str with
    | some f =>
      let replacement := ((t.get "replacement").bind Json.as_str).getD "***REDACTED***"
      (match data with
        | .obj fields =>
          if (getField fields f).isSome
          then .obj (setField fields f (.str replacement))
          else .obj fields
        | d => d)
    | none => data)

def merge (data t : Json) : Except HookError Json :=
  .ok (match t.get "data" with
    | some md =>
      (match data, md with
        | .obj target, .obj source =>
          .obj (source.foldl (fun tgt kv => setField tgt kv.1 kv.2) target)
        | d, _ => d)
    | none => data)

/-- Dispatch on the `type` tag of one pipeline entry; unknown types are
skipped, not errors. -/
def applyOp (b64 : B64Engine) (ty : String) (r t : Json) : Except HookError Json :=
  if ty = "rename_field" then rename_field r t
  else if ty = "remove_field" then remove_field r t
  else if ty = "add_field" then add_field r t
  else if ty = "base64_encode" then base64_encode b64 r t
  else if ty = "base64_decode" then base64_decode b64 r t
  else if ty = "lowercase" then lowercase r t
  else if ty = "uppercase" then uppercase r t
  else if ty = "truncate" then truncate r t
  else if ty = "redact" then redact r t
  else if ty = "merge" then merge r t
  else .ok r

/-- The `for transform in transforms` loop body of
`TransformHandler::transform`, with the `?` early return. -/
def transformGo (b64 : B64Engine) : List Json → Json → Except HookError Json
  | [], r => .ok r
  | t :: ts, r =>
    match (t.get "type").bind Json.as_str with
    | some ty =>
      match applyOp b64 ty r t with
      | .ok r' => transformGo b64 ts r'
      | .error e => .error e
    | none => transformGo b64 ts r

/-- `TransformHandler::transform`
(`src/hooks/handlers/builtin/transform.rs`). -/
def transform (cfg : BuiltInConfig) (b64 : B64Engine) (data : Json) :
    Except HookError Json :=
  let transforms := ((getField cfg.config "transforms").bind Json.as_array).getD []
  transformGo b64 transforms data

/-- `TransformHandler::execute`: `Ok` becomes `Replace`, `Err` becomes a
structured `Error` result (never a handler-level `Err`). -/
def execute (cfg : BuiltInConfig) (b64 : B64Engine) (payloadData : Json) :
    Except HookError ExecutionResult :=
  match transform cfg b64 payloadData with
  | .ok transformed => .ok (.replace transformed)
  | .error e =>
    .ok (.error ("Transform failed: " ++ e.render)
      (some (.obj [("code", .str "TRANSFORM_ERROR")])))

end TransformHandler

end Hooks

namespace Hooks

/-- `ValidationHandler` (`src/hooks/handlers/builtin/validation.rs`).
`schema` is the compiled JSON-schema boundary (`jsonschema` crate):
`none` result means the data validates, `some errs` carries the rendered
violation messages.  `regex_new` is the `regex::Regex::new` boundary
(`none` = the pattern failed to compile, in which case the check is
skipped). -/
structure ValidationHandler where
  name : String
  config : List (String × Json)
  schema : Option (Json → Option (List String))
  regex_new : String → Option (String → Bool)

namespace ValidationHandler

/-- JSON type names as reported in `validate_rules`. -/
def typeName : Json → String
  | .null => "null"
  | .bool _ => "boolean"
  | .num _ => "number"
  | .str _ => "string"
  | .arr _ => "array"
  | .obj _ => "object"

def requiredErrors (cfg : List (String × Json)) (data : Json) : List String :=
  (((getField cfg "required_fields").bind Json.as_array).getD []).foldl
    (fun acc field =>
      match field.as_str with
      | some fn =>
        if (data.get fn).isNone
        then acc ++ ["Missing required field: " ++ fn]
        else acc
      | none => acc) []

def forbiddenErrors (cfg : List (String × Json)) (data : Json) : List String :=
  (((getField cfg "forbidden_fields").bind Json.as_array).getD []).foldl
    (fun acc field =>
      match field.as_str with
      | some fn =>
        if (data.get fn).isSome
        then acc ++ ["Forbidden field present: " ++ fn]
        else acc
      | none => acc) []

def fieldTypeErrors (cfg : List (String × Json)) (data : Json) : List String :=
  (((getField cfg "field_types").bind Json.as_object).getD []).foldl
    (fun acc kv =>
      match data.get kv.1 with
      | some v =>
        (match kv.2.as_str with
          | some expected =>
            if typeName v ≠ expected then
              acc ++ ["Field '" ++ kv.1 ++ "' has wrong type: expected " ++
                expected ++ ", got " ++ typeName v]
            else acc
          | none => acc)
      | none => acc) []

/-- The constraint checks for one field: numeric min/max, length bounds
(byte length for strings, as `String::len`), regex pattern. -/
def constraintErrorsFor (re_new : String → Option (String → Bool))
    (acc : List String) (fn : String) (c v : Json) : List String :=
  let acc :=
    match v.as_f64 with
    | some nv =>
      let acc :=
        match (c.get "min").bind Json.as_f64 with
        | some mn =>
          if nv < mn then
            acc ++ ["Field '" ++ fn ++ "' below minimum: " ++ toString nv ++
              " < " ++ toString mn]
          else acc
        | none => acc
      (match (c.get "max").bind Json.as_f64 with
        | some mx =>
          if nv > mx then
            acc ++ ["Field '" ++ fn ++ "' above maximum: " ++ toString nv ++
              " > " ++ toString mx]
          else acc
        | none => acc)
    | none => acc
  let length : Option Nat :=
    match v with
    | .str s => some s.utf8ByteSize
    | .arr a => some a.length
    | _ => none
  let acc :=
    match length with
    | some len =>
      let acc :=
        match (c.get "min_length").bind Json.as_u64 with
        | some mn =>
          if len < mn then
            acc ++ ["Field '" ++ fn ++ "' too short: " ++ toString len ++
              " < " ++ toString mn]
          else acc
        | none => acc
      (match (c.get "max_length").bind Json.as_u64 with
        | some mx =>
          if len > mx then
            acc ++ ["Field '" ++ fn ++ "' too long: " ++ toString len ++
              " > " ++ toString mx]
          else acc
        | none => acc)
    | none => acc
  match (c.get "pattern").bind Json.as_str, v.as_str with
  | some pat, some sv =>
    (match re_new pat with
      | some re =>
        if re sv = false
        then acc ++ ["Field '" ++ fn ++ "' doesn't match pattern: " ++ pat]
        else acc
      | none => acc)
  | _, _ => acc

def constraintErrors (h : ValidationHandler) (data : Json) : List String :=
  (((getField h.config "constraints").bind Json.as_object).getD []).foldl
    (fun acc kv =>
      match data.get kv.1 with
      | some v => constraintErrorsFor h.regex_new acc kv.1 kv.2 v
      | none => acc) []

/-- `ValidationHandler::validate_rules`: the four rule families in source
order, accumulated into one error list. -/
def validate_rules (h : ValidationHandler) (data : Json) :
    Except (List String) Unit :=
  let errors :=
    requiredErrors h.config data ++ forbiddenErrors h.config data ++
    fieldTypeErrors h.config data ++ constraintErrors h data
  if errors.isEmpty then .ok () else .error errors

/-- `ValidationHandler::execute` (`now_str` models
`chrono::Utc::now().to_rfc3339()` for the `_validated` stamp). -/
def execute (h : ValidationHandler) (now_str : String) (payloadData : Json) :
    Except HookError ExecutionResult :=
  let data_to_validate :=
    if ((getField h.config "validate_payload").bind Json.as_bool).getD true
    then payloadData else Json.null
  match (match h.schema with
         | some check => check data_to_validate
         | none => none) with
  | some errs =>
    .ok (.error ("Schema validation failed: " ++ String.intercalate ", " errs)
      (some (.obj [("code", .str "SCHEMA_VALIDATION_FAILED"),
                   ("errors", .arr (errs.map Json.str))])))
  | none =>
    match validate_rules h data_to_validate with
    | .error errors =>
      .ok (.error ("Validation failed: " ++ String.intercalate ", " errors)
        (some (.obj [("code", .str "VALIDATION_FAILED"),
                     ("errors", .arr (errors.map Json.str))])))
    | .ok _ =>
      if ((getField h.config "add_validation_status").bind Json.as_bool).getD false then
        let result :=
          match payloadData with
          | .obj fields =>
            Json.obj (setField fields "_validated"
              (.obj [("handler", .str h.name), ("timestamp", .str now_str),
                     ("schema_used", .bool h.schema.isSome)]))
          | d => d
        .ok (.replace result)
      else .ok .continue_

end ValidationHandler

end Hooks

namespace Hooks

lemma data_custom_append (x : String) :
    ("custom:" ++ x).data = "custom:".data ++ x.data :=
  String.data_append _ _

lemma take7_custom_append (x : String) :
    ("custom:" ++ x).data.take 7 = "custom:".data := by
  rw [data_custom_append]
  exact List.take_left' rfl

/-- A `custom:`-prefixed string never equals a literal whose first seven
characters differ from `custom:`. -/
lemma custom_append_ne (x lit : String)
    (h : lit.data.take 7 ≠ "custom:".data) : ("custom:" ++ x) ≠ lit := by
  intro he
  exact h (he ▸ take7_custom_append x)

lemma customPrefixed_append (x : String) :
    customPrefixed ("custom:" ++ x) = true := by
  simp [customPrefixed, take7_custom_append]

lemma dropCustomTag_append (x : String) :
    dropCustomTag ("custom:" ++ x) = x := by
  show String.mk (("custom:" ++ x).data.drop 7) = x
  rw [data_custom_append]
  exact congrArg String.mk (List.drop_left "custom:".data x.data)

lemma from_string_custom_append (x : String) :
    HookType.from_string ("custom:" ++ x) = .ok (.custom x) := by
  unfold HookType.from_string
  rw [if_neg (custom_append_ne x _ (by decide)),
    if_neg (custom_append_ne x _ (by decide)),
    if_neg (custom_append_ne x _ (by decide)),
    if_neg (custom_append_ne x _ (by decide)),
    if_neg (custom_append_ne x _ (by decide)),
    if_neg (custom_append_ne x _ (by decide)),
    if_neg (custom_append_ne x _ (by decide)),
    if_neg (custom_append_ne x _ (by decide)),
    if_neg (custom_append_ne x _ (by decide)),
    if_neg (custom_append_ne x _ (by decide)),
    if_neg (custom_append_ne x _ (by decide)),
    if_neg (custom_append_ne x _ (by decide)),
    if_neg (custom_append_ne x _ (by decide)),
    if_neg (custom_append_ne x _ (by decide)),
    if_neg (custom_append_ne x _ (by decide)),
    if_neg (custom_append_ne x _ (by decide)),
    if_neg (custom_append_ne x _ (by decide)),
    if_neg (custom_append_ne x _ (by decide)),
    if_pos (by simp [customPrefixed_append x]), dropCustomTag_append x]

/-- C7: for every built-in `HookType` `t`, `from_string (to_string t)`
returns `t`, `to_string` producing the lower-snake-case names; every
`Custom x` serialises as `"custom:" ++ x` and round-trips verbatim; and
`from_string` on a string that is neither a built-in name nor
`custom:`-prefixed returns the typed parse error. -/
theorem hookType_string_roundtrip :
    (∀ t ∈ HookType.all_builtin, HookType.from_string t.to_string = .ok t)
    ∧ HookType.all_builtin.map HookType.to_string =
      ["server_startup", "server_shutdown", "server_initialized",
       "request_received", "request_processed", "response_sent",
       "tool_pre_execution", "tool_post_execution", "tool_registered",
       "tool_removed", "tcl_pre_execution", "tcl_post_execution",
       "tcl_error", "mcp_server_connected", "mcp_server_disconnected",
       "mcp_server_error", "security_check", "access_denied"]
    ∧ (∀ x : String, (HookType.custom x).to_string = "custom:" ++ x
        ∧ HookType.from_string ("custom:" ++ x) = .ok (.custom x))
    ∧ (∀ s : String, (∀ t ∈ HookType.all_builtin, s ≠ t.to_string) →
        customPrefixed s = false →
        HookType.from_string s = .error ("Invalid hook type: " ++ s)) := by
  refine ⟨fun t ht => by fin_cases ht <;> rfl, by decide,
    fun x => ⟨rfl, from_string_custom_append x⟩,
    fun s h1 h2 => ?_⟩
  unfold HookType.from_string
  rw [if_neg (show s ≠ "server_startup" from h1 .serverStartup (by decide)),
    if_neg (show s ≠ "server_shutdown" from h1 .serverShutdown (by decide)),
    if_neg (show s ≠ "server_initialized" from h1 .serverInitialized (by decide)),
    if_neg (show s ≠ "request_received" from h1 .requestReceived (by decide)),
    if_neg (show s ≠ "request_processed" from h1 .requestProcessed (by decide)),
    if_neg (show s ≠ "response_sent" from h1 .responseSent (by decide)),
    if_neg (show s ≠ "tool_pre_execution" from h1 .toolPreExecution (by decide)),
    if_neg (show s ≠ "tool_post_execution" from h1 .toolPostExecution (by decide)),
    if_neg (show s ≠ "tool_registered" from h1 .toolRegistered (by decide)),
    if_neg (show s ≠ "tool_removed" from h1 .toolRemoved (by decide)),
    if_neg (show s ≠ "tcl_pre_execution" from h1 .tclPreExecution (by decide)),
    if_neg (show s ≠ "tcl_post_execution" from h1 .tclPostExecution (by decide)),
    if_neg (show s ≠ "tcl_error" from h1 .tclError (by decide)),
    if_neg (show s ≠ "mcp_server_connected" from h1 .mcpServerConnected (by decide)),
    if_neg (show s ≠ "mcp_server_disconnected" from h1 .mcpServerDisconnected (by decide)),
    if_neg (show s ≠ "mcp_server_error" from h1 .mcpServerError (by decide)),
    if_neg (show s ≠ "security_check" from h1 .securityCheck (by decide)),
    if_neg (show s ≠ "access_denied" from h1 .accessDenied (by decide)),
    if_neg (by simp [h2])]

/-- Witness for C7 at concrete inputs: one built-in round trip, one
`custom:` round trip, one rejected string. -/
theorem hookType_string_roundtrip_witness :
    HookType.from_string (HookType.toolPreExecution.to_string) =
      .ok .toolPreExecution
    ∧ HookType.from_string "custom:alpha" = .ok (.custom "alpha")
    ∧ HookType.from_string "bogus" = .error ("Invalid hook type: " ++ "bogus") :=
  ⟨hookType_string_roundtrip.1 .toolPreExecution (by decide),
   (hookType_string_roundtrip.2.2.1 "alpha").2,
   hookType_string_roundtrip.2.2.2 "bogus" (by decide) (by decide)⟩

end Hooks


set_option maxHeartbeats 1000000

namespace Hooks

namespace TransformHandler

/-- The ten recognised pipeline operation types. -/
def opNames : List String :=
  ["rename_field", "remove_field", "add_field", "base64_encode",
   "base64_decode", "lowercase", "uppercase", "truncate", "redact", "merge"]

lemma rename_field_not_obj (t : Json) :
    ∀ d : Json, d.isObj = false → rename_field d t = .ok d := by
  intro d hd
  cases d <;> (try (simp [Json.isObj] at hd)) <;>
    (unfold rename_field) <;> (repeat' split) <;> first | rfl | simp_all

lemma remove_field_not_obj (t : Json) :
    ∀ d : Json, d.isObj = false → remove_field d t = .ok d := by
  intro d hd
  cases d <;> (try (simp [Json.isObj] at hd)) <;>
    (unfold remove_field) <;> (repeat' split) <;> first | rfl | simp_all

lemma add_field_not_obj (t : Json) :
    ∀ d : Json, d.isObj = false → add_field d t = .ok d := by
  intro d hd
  cases d <;> (try (simp [Json.isObj] at hd)) <;>
    (unfold add_field) <;> (repeat' split) <;> first | rfl | simp_all

lemma lowercase_not_obj (t : Json) :
    ∀ d : Json, d.isObj = false → lowercase d t = .ok d := by
  intro d hd
  cases d <;> (try (simp [Json.isObj] at hd)) <;>
    (unfold lowercase) <;> (repeat' split) <;> first | rfl | simp_all

lemma uppercase_not_obj (t : Json) :
    ∀ d : Json, d.isObj = false → uppercase d t = .ok d := by
  intro d hd
  cases d <;> (try (simp [Json.isObj] at hd)) <;>
    (unfold uppercase) <;> (repeat' split) <;> first | rfl | simp_all

lemma truncate_not_obj (t : Json) :
    ∀ d : Json, d.isObj = false → truncate d t = .ok d := by
  intro d hd
  cases d <;> (try (simp [Json.isObj] at hd)) <;>
    (unfold truncate) <;> (repeat' split) <;> first | rfl | simp_all

lemma redact_not_obj (t : Json) :
    ∀ d : Json, d.isObj = false → redact d t = .ok d := by
  intro d hd
  cases d <;> (try (simp [Json.isObj] at hd)) <;>
    (unfold redact) <;> (repeat' split) <;> first | rfl | simp_all

lemma merge_not_obj (t : Json) :
    ∀ d : Json, d.isObj = false → merge d t = .ok d := by
  intro d hd
  cases d <;> (try (simp [Json.isObj] at hd)) <;>
    (unfold merge) <;> (repeat' split) <;> first | rfl | simp_all

lemma base64_encode_not_obj (b64 : B64Engine) (t : Json) :
    ∀ d : Json, d.isObj = false → base64_encode b64 d t = .ok d := by
  intro d hd
  cases d <;> (try (simp [Json.isObj] at hd)) <;>
    (unfold base64_encode) <;> (repeat' split) <;> first | rfl | simp_all

lemma base64_decode_not_obj (b64 : B64Engine) (t : Json) :
    ∀ d : Json, d.isObj = false → base64_decode b64 d t = .ok d := by
  intro d hd
  cases d <;> (try (simp [Json.isObj] at hd)) <;>
    (unfold base64_decode) <;> (repeat' split) <;> first | rfl | simp_all

lemma applyOp_ok (b64 : B64Engine) (ty : String) (r t : Json) :
    ∃ v, applyOp b64 ty r t = .ok v := by
  unfold applyOp
  split_ifs <;> exact ⟨_, rfl⟩

lemma transformGo_ok (b64 : B64Engine) :
    ∀ (ts : List Json) (r : Json), ∃ v, transformGo b64 ts r = .ok v := by
  intro ts
  induction ts with
  | nil => exact fun r => ⟨r, rfl⟩
  | cons t ts ih =>
    intro r
    unfold transformGo
    cases hty : (t.get "type").bind Json.as_str with
    | some ty =>
      obtain ⟨v, hv⟩ := applyOp_ok b64 ty r t
      obtain ⟨w, hw⟩ := ih v
      refine ⟨w, ?_⟩
      show (match applyOp b64 ty r t with
            | .ok r' => transformGo b64 ts r'
            | .error e => .error e) = .ok w
      rw [hv]
      exact hw
    | none => exact ih r

lemma applyOp_not_obj (b64 : B64Engine) (ty : String) (t : Json) :
    ∀ d : Json, d.isObj = false → applyOp b64 ty d t = .ok d := by
  intro d hd
  unfold applyOp
  split_ifs <;>
    first
    | rfl
    | exact rename_field_not_obj t d hd
    | exact remove_field_not_obj t d hd
    | exact add_field_not_obj t d hd
    | exact base64_encode_not_obj b64 t d hd
    | exact base64_decode_not_obj b64 t d hd
    | exact lowercase_not_obj t d hd
    | exact uppercase_not_obj t d hd
    | exact truncate_not_obj t d hd
    | exact redact_not_obj t d hd
    | exact merge_not_obj t d hd

lemma transformGo_not_obj (b64 : B64Engine) :
    ∀ (ts : List Json) (d : Json), d.isObj = false →
      transformGo b64 ts d = .ok d := by
  intro ts
  induction ts with
  | nil => exact fun d _ => rfl
  | cons t ts ih =>
    intro d hd
    unfold transformGo
    cases hty : (t.get "type").bind Json.as_str with
    | some ty =>
      show (match applyOp b64 ty d t with
            | .ok r' => transformGo b64 ts r'
            | .error e => .error e) = .ok d
      rw [applyOp_not_obj b64 ty t d hd]
      exact ih d hd
    | none => exact ih d hd

/-- C9: `TransformHandler::execute` always returns `Ok(Replace _)` — the
pipeline's error branch is unreachable and the handler never returns
`Continue`, `Stop`, or an `Err`; non-object data passes through every
pipeline unchanged, and an operation with an unrecognised `type` leaves
the data unchanged. -/
theorem transform_execute_always_replace (cfg : BuiltInConfig)
    (b64 : B64Engine) (data : Json) :
    (∃ v, execute cfg b64 data = .ok (.replace v))
    ∧ (data.isObj = false → transform cfg b64 data = .ok data
        ∧ execute cfg b64 data = .ok (.replace data))
    ∧ (∀ ty t, ty ∉ opNames → applyOp b64 ty data t = .ok data) := by
  refine ⟨?_, fun hd => ?_, fun ty t hty => ?_⟩
  · obtain ⟨v, hv⟩ := transformGo_ok b64
      (((getField cfg.config "transforms").bind Json.as_array).getD []) data
    exact ⟨v, by unfold execute transform; rw [hv]⟩
  · have h1 : transform cfg b64 data = .ok data :=
      transformGo_not_obj b64 _ data hd
    exact ⟨h1, by unfold execute; rw [h1]⟩
  · simp only [opNames, List.mem_cons, not_or, List.not_mem_nil] at hty
    obtain ⟨n1, n2, n3, n4, n5, n6, n7, n8, n9, n10, -⟩ := hty
    unfold applyOp
    rw [if_neg n1, if_neg n2, if_neg n3, if_neg n4, if_neg n5, if_neg n6,
      if_neg n7, if_neg n8, if_neg n9, if_neg n10]

/-- Witness for C9: a pipeline holding one unrecognised operation applied
to non-object data leaves it unchanged and the handler replies
`Ok(Replace _)`. -/
theorem transform_execute_always_replace_witness :
    transform
      ⟨"transform", [("transforms", .arr [.obj [("type", .str "frobnicate")]])]⟩
      ⟨fun s => s, fun _ => none⟩ (.str "x") = .ok (.str "x")
    ∧ execute
        ⟨"transform", [("transforms", .arr [.obj [("type", .str "frobnicate")]])]⟩
        ⟨fun s => s, fun _ => none⟩ (.str "x") = .ok (.replace (.str "x"))
    ∧ applyOp ⟨fun s => s, fun _ => none⟩ "frobnicate" (.str "x")
        (.obj [("type", .str "frobnicate")]) = .ok (.str "x") :=
  ⟨((transform_execute_always_replace
      ⟨"transform", [("transforms", .arr [.obj [("type", .str "frobnicate")]])]⟩
      ⟨fun s => s, fun _ => none⟩ (.str "x")).2.1 rfl).1,
   ((transform_execute_always_replace
      ⟨"transform", [("transforms", .arr [.obj [("type", .str "frobnicate")]])]⟩
      ⟨fun s => s, fun _ => none⟩ (.str "x")).2.1 rfl).2,
   (transform_execute_always_replace
      ⟨"transform", [("transforms", .arr [.obj [("type", .str "frobnicate")]])]⟩
      ⟨fun s => s, fun _ => none⟩ (.str "x")).2.2 "frobnicate"
      (.obj [("type", .str "frobnicate")]) (by decide)⟩

end TransformHandler

end Hooks


namespace Hooks

/-- Counterexample for C6: on the stdout text `continue` — which is not
valid JSON, so `serde_json::from_str` (modelled by the parse function)
rejects it — the external-command handler parses `Continue` while the
script handler parses `Replace("continue")`, so the two parsers do not
agree on every zero-exit stdout. -/
theorem external_tcl_parse_counterexample :
    parse_output "h" (fun _ => none) "continue" "" 0 = .ok .continue_
    ∧ parse_result "h" (fun _ => none) "continue" = .ok (.replace (.str "continue"))
    ∧ parse_output "h" (fun _ => none) "continue" "" 0 ≠
        parse_result "h" (fun _ => none) "continue" := by
  refine ⟨rfl, rfl, fun h => ?_⟩
  have h' : (Except.ok ExecutionResult.continue_ : Except HookError ExecutionResult)
      = .ok (.replace (.str "continue")) := h
  exact ExecutionResult.noConfusion (Except.ok.inj h')

/-- C6 (amended): with the same parse function and handler name, the
external-command handler's zero-exit stdout parsing and the script
handler's reply parsing agree on every text the JSON parser accepts; on a
text the JSON parser rejects they agree exactly when the trimmed text is
empty or `ok`, or the text equals its own trim and that trim is not
`continue` (the external handler additionally maps `continue` to
`Continue`, and replaces with the trimmed rather than the original
string). -/
theorem external_tcl_parse_agreement (name : String)
    (from_str : String → Option Json) (s : String) :
    (∀ j, from_str s = some j →
      parse_output name from_str s "" 0 = parse_result name from_str s)
    ∧ (from_str s = none →
      (parse_output name from_str s "" 0 = parse_result name from_str s ↔
        (trimStr s = "" ∨ trimStr s = "ok" ∨
          (trimStr s ≠ "continue" ∧ s = trimStr s)))) := by
  constructor
  · intro j hj
    unfold parse_output parse_result
    rw [hj, if_neg (by norm_num)]
  · intro hn
    unfold parse_output parse_result
    rw [hn, if_neg (by norm_num)]
    by_cases h1 : trimStr s = "" <;> by_cases h2 : trimStr s = "ok" <;>
      by_cases h3 : trimStr s = "continue" <;>
      simp [h1, h2, h3, Except.ok.injEq, ExecutionResult.replace.injEq,
        Json.str.injEq, eq_comm]

/-- Witness for C6's amended theorem: a JSON reply agrees; the non-JSON
reply `hello` agrees (both replace). -/
theorem external_tcl_parse_agreement_witness :
    parse_output "h" (fun _ => some (.obj [("type", .str "continue")])) "x" "" 0 =
      parse_result "h" (fun _ => some (.obj [("type", .str "continue")])) "x"
    ∧ parse_output "h" (fun _ => none) "hello" "" 0 =
        parse_result "h" (fun _ => none) "hello" :=
  ⟨(external_tcl_parse_agreement "h" (fun _ => some (.obj [("type", .str "continue")])) "x").1
      (.obj [("type", .str "continue")]) rfl,
   ((external_tcl_parse_agreement "h" (fun _ => none) "hello").2 rfl).mpr
      (Or.inr (Or.inr ⟨by decide, by decide⟩))⟩

end Hooks

namespace Hooks

def containsFrom (needle : List Char) : List Char → Bool
  | [] => decide (needle = [])
  | c :: cs => needle.isPrefixOf (c :: cs) || containsFrom needle cs

/-- Substring test, used to state what a rendered error does *not*
carry. -/
def strContains (hay needle : String) : Bool :=
  containsFrom needle.data hay.data

/-- The scenario of C2: a `validation` handler configured with
`{required_fields: ["id"]}` (no schema, so the compiled-schema slot is
`none`, and the regex boundary is never consulted). -/
def validationC2 : ValidationHandler :=
  { name := "validation",
    config := [("required_fields", .arr [.str "id"])],
    schema := none,
    regex_new := fun _ => none }

/-- The C2 handler behind the `AsyncHookHandler` boundary (`should_run`
is the trait default `true`; the validation handler never returns
`Err`). -/
def validationSpecC2 : HandlerSpec :=
  { shouldRun := fun _ => true,
    exec := fun d =>
      match ValidationHandler.execute validationC2 "ts" d with
      | .ok r => .ok r
      | .error e => .err e,
    duration := fun _ => 1 }

/-- A fresh manager with the C2 handler registered on
`tool_pre_execution`. -/
def managerC2 : HookManager :=
  match HookManager.new.register "validation" [.toolPreExecution]
      validationSpecC2 500 with
  | .ok m => m
  | .error _ => HookManager.new

/-- The C2 fire: `execute(tool_pre_execution, {"x": 1})`. -/
def fireC2 : (Except HookError Json) × FireState :=
  managerC2.execute 0 .toolPreExecution (.obj [("x", .num 1)])

/-- Counterexample for C2: the fire does abort with
`HandlerExecutionFailed`, but that error carries only the handler name
and the message string — the `details` object with the
`VALIDATION_FAILED` code is discarded by the engine's conversion, so
neither the error nor its rendering contains the code. -/
theorem validation_details_dropped_counterexample :
    fireC2.1 = .error (.executionFailed "validation"
      "Validation failed: Missing required field: id")
    ∧ strContains "Validation failed: Missing required field: id"
        "VALIDATION_FAILED" = false
    ∧ strContains
        (HookError.executionFailed "validation"
          "Validation failed: Missing required field: id").render
        "VALIDATION_FAILED" = false := by
  exact ⟨rfl, by decide, by decide⟩

/-- C2 (amended): on the fire with `{"x": 1}`, the validation handler
itself returns `ExecutionResult::Error` whose details carry
`code: "VALIDATION_FAILED"` and the errors list
`["Missing required field: id"]`; the engine then aborts the fire with
`HandlerExecutionFailed` wrapping the handler name and the error
*message* only, the details being dropped in the conversion. -/
theorem validation_reject_fire :
    ValidationHandler.execute validationC2 "ts" (.obj [("x", .num 1)]) =
      .ok (.error "Validation failed: Missing required field: id"
        (some (.obj [("code", .str "VALIDATION_FAILED"),
                     ("errors", .arr [.str "Missing required field: id"])])))
    ∧ fireC2.1 = .error (.executionFailed "validation"
        "Validation failed: Missing required field: id") :=
  ⟨rfl, rfl⟩

end Hooks

namespace Hooks

/-- A handler whose `execute` completes with `Err(Custom("boom"))` before
the timeout. -/
def errSpecC1 : HandlerSpec :=
  { shouldRun := fun _ => true,
    exec := fun _ => .err (.custom "boom"),
    duration := fun _ => 7 }

def managerC1 : HookManager :=
  match HookManager.new.register "errh" [.tclError] errSpecC1 500 with
  | .ok m => m
  | .error _ => HookManager.new

def fireC1 : (Except HookError Json) × FireState :=
  managerC1.execute 5 .tclError (.obj [])

/-- Counterexample for C1: when the handler's `execute` returns
`Err(Custom("boom"))`, the fire aborts with the handler's error
*verbatim* — `Custom("boom")`, not a `HandlerExecutionFailed` wrapping
the handler name — while stats, the `Failed` lifecycle event and the
`error` history entry are recorded as the claim says. -/
theorem handler_error_not_wrapped_counterexample :
    fireC1.1 = .error (.custom "boom")
    ∧ (match fireC1.1 with
       | .error e => e.isExecutionFailed
       | .ok _ => true) = false
    ∧ fireC1.2.events =
        [.pre "errh", .executing "errh", .failed "errh" "boom"]
    ∧ fireC1.2.history = [⟨.tclError, "errh", 7, "error"⟩]
    ∧ (lookupEntry fireC1.2.entries "errh").map (·.stats) =
        some { total_executions := 1, successful_executions := 0,
               failed_executions := 1, average_duration := some 7,
               max_duration := some 7, last_execution := some 5 } :=
  ⟨rfl, rfl, rfl, rfl, rfl⟩

/-- C1 (amended): for every fire in which a handler's `execute` completes
with `Err(e)` before the global timeout, the engine records a failure in
that handler's stats, emits `Pre`/`Executing` then `Failed`, appends an
`error` history entry, and aborts the fire by returning the handler's
error `e` unchanged (it does not wrap it in `HandlerExecutionFailed`;
the host sees that variant only when the handler itself returned it).
Stated for a handler with no rate limit configured. -/
theorem handler_error_aborts_verbatim
    (gt now : Nat) (ht : HookType) (n : String) (rest : List String)
    (data : Json) (st : FireState) (e : HandlerEntry) (e0 : HookError)
    (hl : lookupEntry st.entries n = some e)
    (hen : e.enabled = true)
    (hrl : e.rate_limit = none)
    (hsr : e.handler.shouldRun data = true)
    (hex : e.handler.exec data = .err e0) :
    execLoop gt now ht (n :: rest) data st =
      (.error e0,
       { st with
         entries := updateEntry st.entries n
           { e with stats := e.stats.record_failure (e.handler.duration data) now },
         events := (st.events ++ [.pre n, .executing n]) ++ [.failed n e0.render],
         history := st.history ++ [⟨ht, n, e.handler.duration data, "error"⟩] }) := by
  simp only [execLoop, execStep, runHandler, hl, hen, hrl, hsr, hex]
  rfl

/-- Witness for C1's amended theorem at the concrete `errh` fire. -/
theorem handler_error_aborts_verbatim_witness :
    execLoop 5000000000 5 .tclError ["errh"] (.obj [])
        (FireState.ofEntries managerC1.entries) =
      (.error (.custom "boom"),
       { FireState.ofEntries managerC1.entries with
         entries := updateEntry (FireState.ofEntries managerC1.entries).entries "errh"
           { handler := errSpecC1, priority := 500,
             stats := HookStats.record_failure {} 7 5,
             enabled := true, rate_limit := none },
         events := (([] : List LifeEvent) ++ [.pre "errh", .executing "errh"]) ++
           [.failed "errh" (HookError.custom "boom").render],
         history := ([] : List HistEntry) ++ [⟨.tclError, "errh", 7, "error"⟩] }) :=
  handler_error_aborts_verbatim 5000000000 5 .tclError "errh" [] (.obj [])
    (FireState.ofEntries managerC1.entries)
    { handler := errSpecC1, priority := 500, stats := {},
      enabled := true, rate_limit := none }
    (.custom "boom") rfl rfl rfl rfl rfl

end Hooks

namespace Hooks

lemma rateLimit_admit_calls (rl : RateLimit) (now : Nat)
    (h : (rl.check_and_update now).1 = true) :
    (rl.check_and_update now).2.calls =
      rl.calls.filter (fun t => now - t < rl.window) ++ [now] := by
  simp only [RateLimit.check_and_update] at h ⊢
  split_ifs at h ⊢ with hc
  rfl

/-- Updating one entry without touching its stats leaves every handler's
stats view unchanged. -/
lemma lookup_update_map_stats (entries : List (String × HandlerEntry))
    (n : String) (e e' : HandlerEntry) (hl : lookupEntry entries n = some e)
    (hs : e'.stats = e.stats) (m : String) :
    (lookupEntry (updateEntry entries n e') m).map (·.stats) =
    (lookupEntry entries m).map (·.stats) := by
  induction entries with
  | nil => rfl
  | cons kv rest ih =>
    obtain ⟨k, x⟩ := kv
    unfold lookupEntry at hl
    unfold updateEntry
    by_cases hkn : k = n
    · rw [if_pos hkn] at hl ⊢
      unfold lookupEntry
      by_cases hkm : k = m
      · rw [if_pos hkm, if_pos hkm]
        simp [hs, Option.some.inj hl]
      · rw [if_neg hkm, if_neg hkm]
    · rw [if_neg hkn] at hl ⊢
      unfold lookupEntry
      by_cases hkm : k = m
      · rw [if_pos hkm, if_pos hkm]
      · rw [if_neg hkm, if_neg hkm]
        exact ih hl

/-- C10: the rate-limit check runs before the `should_run` predicate:
when an enabled, rate-limited handler is admitted but `should_run`
returns false, the handler is skipped (a `Skipped` event, no `Pre`, and
the loop moves on), yet the admission's timestamp has been appended to
the sliding window — reducing the remaining admissions — while no
handler's stats change. -/
theorem rate_limit_consumed_on_skip
    (gt now : Nat) (ht : HookType) (n : String) (rest : List String)
    (data : Json) (st : FireState) (e : HandlerEntry) (rl : RateLimit)
    (hl : lookupEntry st.entries n = some e)
    (hen : e.enabled = true)
    (hrl : e.rate_limit = some rl)
    (hadm : (rl.check_and_update now).1 = true)
    (hsr : e.handler.shouldRun data = false) :
    execLoop gt now ht (n :: rest) data st =
      execLoop gt now ht rest data
        { st with
          entries := updateEntry st.entries n
            { e with rate_limit := some (rl.check_and_update now).2 },
          events := st.events ++ [.skipped n] }
    ∧ (rl.check_and_update now).2.calls =
        rl.calls.filter (fun t => now - t < rl.window) ++ [now]
    ∧ ∀ m, (lookupEntry (updateEntry st.entries n
          { e with rate_limit := some (rl.check_and_update now).2 }) m).map (·.stats)
        = (lookupEntry st.entries m).map (·.stats) := by
  refine ⟨?_, rateLimit_admit_calls rl now hadm,
    fun m => lookup_update_map_stats st.entries n e
      { e with rate_limit := some (rl.check_and_update now).2 } hl rfl m⟩
  simp only [execLoop, execStep, runHandler, hl, hen, hrl, hadm, hsr]
  rfl

/-- The C10 scenario: an enabled handler whose `should_run` is false,
with rate limit 3 per 100. -/
def skipSpecC10 : HandlerSpec :=
  { shouldRun := fun _ => false,
    exec := fun _ => .ok .continue_,
    duration := fun _ => 2 }

def managerC10 : HookManager :=
  match (match HookManager.new.register "h" [.requestReceived]
      skipSpecC10 500 with
    | .ok m => m
    | .error _ => HookManager.new).set_rate_limit "h" 3 100 with
  | .ok m => m
  | .error _ => HookManager.new

/-- Witness for C10: at the concrete manager, a skipped invocation still
appends its timestamp to the window and changes no stats. -/
theorem rate_limit_consumed_on_skip_witness :
    ((RateLimit.new 3 100).check_and_update 50).2.calls =
      (RateLimit.new 3 100).calls.filter (fun t => 50 - t < 100) ++ [50]
    ∧ (lookupEntry (updateEntry managerC10.entries "h"
        { handler := skipSpecC10, priority := 500, stats := {},
          enabled := true,
          rate_limit := some ((RateLimit.new 3 100).check_and_update 50).2 })
        "h").map (·.stats) =
      (lookupEntry managerC10.entries "h").map (·.stats) :=
  ⟨(rate_limit_consumed_on_skip 5000000000 50 .requestReceived "h" []
      (.obj []) (FireState.ofEntries managerC10.entries)
      { handler := skipSpecC10, priority := 500, stats := {},
        enabled := true, rate_limit := some (RateLimit.new 3 100) }
      (RateLimit.new 3 100) rfl rfl rfl (by decide) rfl).2.1,
   (rate_limit_consumed_on_skip 5000000000 50 .requestReceived "h" []
      (.obj []) (FireState.ofEntries managerC10.entries)
      { handler := skipSpecC10, priority := 500, stats := {},
        enabled := true, rate_limit := some (RateLimit.new 3 100) }
      (RateLimit.new 3 100) rfl rfl rfl (by decide) rfl).2.2 "h"⟩

end Hooks

namespace Hooks

/-- Fold a sequence of recorded executions (success flag, duration,
timestamp) into a `HookStats` starting from the default. -/
def HookStats.applyEvents (evs : List (Bool × Nat × Nat)) : HookStats :=
  evs.foldl
    (fun s ev =>
      if ev.1 then s.record_success ev.2.1 ev.2.2
      else s.record_failure ev.2.1 ev.2.2) {}

/-- The consistency invariant of `HookStats`. -/
def StatsInv (s : HookStats) : Prop :=
  s.total_executions = s.successful_executions + s.failed_executions
  ∧ (s.total_executions = 0 →
      s.average_duration = none ∧ s.max_duration = none ∧
        s.last_execution = none)
  ∧ (0 < s.total_executions →
      ∃ a m, s.average_duration = some a ∧ s.max_duration = some m ∧
        a ≤ m ∧ s.last_execution.isSome = true)

lemma cumulative_mean_le (a total d M : Nat) (ha : a ≤ M) (hd : d ≤ M) :
    (a * total + d) / (total + 1) ≤ M := by
  have h1 : a * total + d ≤ M * (total + 1) := by
    calc a * total + d ≤ M * total + M :=
          Nat.add_le_add (Nat.mul_le_mul_right total ha) hd
      _ = M * (total + 1) := by ring
  calc (a * total + d) / (total + 1) ≤ (M * (total + 1)) / (total + 1) :=
        Nat.div_le_div_right h1
    _ = M := Nat.mul_div_cancel M (Nat.succ_pos total)

lemma record_success_none (s : HookStats) (d now : Nat)
    (ha : s.average_duration = none) (hm : s.max_duration = none) :
    s.record_success d now =
      { total_executions := s.total_executions + 1,
        successful_executions := s.successful_executions + 1,
        failed_executions := s.failed_executions,
        average_duration := some d, max_duration := some d,
        last_execution := some now } := by
  simp [HookStats.record_success, HookStats.update_duration_stats, ha, hm]

lemma record_success_some (s : HookStats) (d now a m : Nat)
    (ha : s.average_duration = some a) (hm : s.max_duration = some m) :
    s.record_success d now =
      { total_executions := s.total_executions + 1,
        successful_executions := s.successful_executions + 1,
        failed_executions := s.failed_executions,
        average_duration :=
          some ((a * s.total_executions + d) / (s.total_executions + 1)),
        max_duration := some (if m < d then d else m),
        last_execution := some now } := by
  simp only [HookStats.record_success, HookStats.update_duration_stats, ha, hm,
    Nat.add_sub_cancel, gt_iff_lt]
  split_ifs with h <;> rfl

lemma record_failure_none (s : HookStats) (d now : Nat)
    (ha : s.average_duration = none) (hm : s.max_duration = none) :
    s.record_failure d now =
      { total_executions := s.total_executions + 1,
        successful_executions := s.successful_executions,
        failed_executions := s.failed_executions + 1,
        average_duration := some d, max_duration := some d,
        last_execution := some now } := by
  simp [HookStats.record_failure, HookStats.update_duration_stats, ha, hm]

lemma record_failure_some (s : HookStats) (d now a m : Nat)
    (ha : s.average_duration = some a) (hm : s.max_duration = some m) :
    s.record_failure d now =
      { total_executions := s.total_executions + 1,
        successful_executions := s.successful_executions,
        failed_executions := s.failed_executions + 1,
        average_duration :=
          some ((a * s.total_executions + d) / (s.total_executions + 1)),
        max_duration := some (if m < d then d else m),
        last_execution := some now } := by
  simp only [HookStats.record_failure, HookStats.update_duration_stats, ha, hm,
    Nat.add_sub_cancel, gt_iff_lt]
  split_ifs with h <;> rfl

lemma statsInv_record_success (s : HookStats) (h : StatsInv s) (d now : Nat) :
    StatsInv (s.record_success d now) := by
  obtain ⟨h1, h2, h3⟩ := h
  by_cases h0 : s.total_executions = 0
  · obtain ⟨ha, hm, -⟩ := h2 h0
    rw [record_success_none s d now ha hm]
    exact ⟨by simp; omega, by simp, fun _ =>
      ⟨d, d, rfl, rfl, le_refl d, rfl⟩⟩
  · obtain ⟨a, m, ha, hm, ham, -⟩ := h3 (Nat.pos_of_ne_zero h0)
    rw [record_success_some s d now a m ha hm]
    refine ⟨by simp; omega, by simp, fun _ => ?_⟩
    refine ⟨_, _, rfl, rfl, ?_, rfl⟩
    by_cases hdm : m < d
    · rw [if_pos hdm]
      exact cumulative_mean_le a s.total_executions d d
        (le_trans ham (Nat.le_of_lt hdm)) (le_refl d)
    · rw [if_neg hdm]
      exact cumulative_mean_le a s.total_executions d m ham (Nat.le_of_not_lt hdm)

lemma statsInv_record_failure (s : HookStats) (h : StatsInv s) (d now : Nat) :
    StatsInv (s.record_failure d now) := by
  obtain ⟨h1, h2, h3⟩ := h
  by_cases h0 : s.total_executions = 0
  · obtain ⟨ha, hm, -⟩ := h2 h0
    rw [record_failure_none s d now ha hm]
    exact ⟨by simp; omega, by simp, fun _ =>
      ⟨d, d, rfl, rfl, le_refl d, rfl⟩⟩
  · obtain ⟨a, m, ha, hm, ham, -⟩ := h3 (Nat.pos_of_ne_zero h0)
    rw [record_failure_some s d now a m ha hm]
    refine ⟨by simp; omega, by simp, fun _ => ?_⟩
    refine ⟨_, _, rfl, rfl, ?_, rfl⟩
    by_cases hdm : m < d
    · rw [if_pos hdm]
      exact cumulative_mean_le a s.total_executions d d
        (le_trans ham (Nat.le_of_lt hdm)) (le_refl d)
    · rw [if_neg hdm]
      exact cumulative_mean_le a s.total_executions d m ham (Nat.le_of_not_lt hdm)

lemma statsInv_applyEvents (evs : List (Bool × Nat × Nat)) :
    StatsInv (HookStats.applyEvents evs) := by
  have base : StatsInv ({} : HookStats) :=
    ⟨rfl, fun _ => ⟨rfl, rfl, rfl⟩, fun h => absurd h (by simp)⟩
  unfold HookStats.applyEvents
  generalize hs : ({} : HookStats) = s0 at base ⊢
  clear hs
  induction evs generalizing s0 with
  | nil => exact base
  | cons ev evs ih =>
    simp only [List.foldl_cons]
    apply ih
    by_cases hev : ev.1 = true
    · simpa [hev] using statsInv_record_success s0 base ev.2.1 ev.2.2
    · simp only [Bool.not_eq_true] at hev
      simpa [hev] using statsInv_record_failure s0 base ev.2.1 ev.2.2

end Hooks

namespace Hooks

/-- C8: for every sequence of `record_success`/`record_failure` calls
starting from the default stats, `total == successful + failed`, the
maximum duration is at least the cumulative mean, and `last_execution`
is present iff at least one execution was recorded; and the engine's two
skip paths (disabled handler, `should_run` false) step to the next
handler emitting only a `Skipped` event, leaving the entry map — hence
every counter — untouched. -/
theorem stats_consistency (evs : List (Bool × Nat × Nat)) :
    (HookStats.applyEvents evs).total_executions =
      (HookStats.applyEvents evs).successful_executions +
        (HookStats.applyEvents evs).failed_executions
    ∧ (∀ a, (HookStats.applyEvents evs).average_duration = some a →
        ∃ m, (HookStats.applyEvents evs).max_duration = some m ∧ a ≤ m)
    ∧ ((HookStats.applyEvents evs).last_execution.isSome = true ↔
        0 < (HookStats.applyEvents evs).total_executions)
    ∧ (∀ (gt now : Nat) (ht : HookType) (n : String) (rest : List String)
        (data : Json) (st : FireState) (e : HandlerEntry),
        lookupEntry st.entries n = some e → e.enabled = false →
        execLoop gt now ht (n :: rest) data st =
          execLoop gt now ht rest data
            { st with events := st.events ++ [.skipped n] })
    ∧ (∀ (gt now : Nat) (ht : HookType) (n : String) (rest : List String)
        (data : Json) (st : FireState) (e : HandlerEntry),
        lookupEntry st.entries n = some e → e.enabled = true →
        e.rate_limit = none → e.handler.shouldRun data = false →
        execLoop gt now ht (n :: rest) data st =
          execLoop gt now ht rest data
            { st with events := st.events ++ [.skipped n] }) := by
  obtain ⟨h1, h2, h3⟩ := statsInv_applyEvents evs
  refine ⟨h1, fun a ha => ?_, ⟨fun hsome => ?_, fun hpos => ?_⟩,
    fun gt now ht n rest data st e hl hen => ?_,
    fun gt now ht n rest data st e hl hen hrl hsr => ?_⟩
  · by_cases h0 : (HookStats.applyEvents evs).total_executions = 0
    · exact absurd ((h2 h0).1 ▸ ha) (by simp)
    · obtain ⟨a', m, ha', hm, ham, -⟩ := h3 (Nat.pos_of_ne_zero h0)
      refine ⟨m, hm, ?_⟩
      rw [ha] at ha'
      exact (Option.some.inj ha') ▸ ham
  · by_contra h0
    have hz : (HookStats.applyEvents evs).total_executions = 0 := by omega
    rw [(h2 hz).2.2] at hsome
    exact Bool.noConfusion hsome
  · obtain ⟨-, -, -, -, -, hlast⟩ := h3 hpos
    exact hlast
  · simp only [execLoop, execStep, hl, hen]
    rfl
  · simp only [execLoop, execStep, runHandler, hl, hen, hrl, hsr]
    rfl

/-- Witness for C8 at a concrete run: one success (5ns at t=10) then one
failure (3ns at t=11); and a concrete skipped invocation leaving the
state's entries untouched. -/
theorem stats_consistency_witness :
    (HookStats.applyEvents [(true, 5, 10), (false, 3, 11)]).total_executions =
      (HookStats.applyEvents [(true, 5, 10), (false, 3, 11)]).successful_executions +
        (HookStats.applyEvents [(true, 5, 10), (false, 3, 11)]).failed_executions
    ∧ (HookStats.applyEvents [(true, 5, 10), (false, 3, 11)]).last_execution.isSome = true
    ∧ execLoop 1 0 .serverStartup ["z"] .null
        (FireState.ofEntries [("z", ⟨skipSpecC10, 500, {}, true, none⟩)]) =
      execLoop 1 0 .serverStartup [] .null
        { FireState.ofEntries [("z", ⟨skipSpecC10, 500, {}, true, none⟩)] with
          events :=
            (FireState.ofEntries
              [("z", ⟨skipSpecC10, 500, {}, true, none⟩)]).events ++
              [.skipped "z"] } :=
  ⟨(stats_consistency [(true, 5, 10), (false, 3, 11)]).1,
   (stats_consistency [(true, 5, 10), (false, 3, 11)]).2.2.1.mpr (by decide),
   (stats_consistency []).2.2.2.2 1 0 .serverStartup "z" [] .null
     (FireState.ofEntries [("z", ⟨skipSpecC10, 500, {}, true, none⟩)])
     ⟨skipSpecC10, 500, {}, true, none⟩ rfl rfl rfl rfl⟩

end Hooks

namespace Hooks

/-- A sequence of rate-limit checks at the given instants, threading the
state (each manager fire performs one such check per rate-limited
handler). -/
def RateLimit.runChecks : RateLimit → List Nat → List Bool × RateLimit
  | rl, [] => ([], rl)
  | rl, t :: ts =>
    let r := rl.check_and_update t
    let rest := RateLimit.runChecks r.2 ts
    (r.1 :: rest.1, rest.2)

/-- The check as the claim words it — *Modelled from the spec:* purge
exactly the timestamps strictly older than `now - window` ("older than
now minus window"), then admit iff fewer than `max_calls` remain.  Kept
for comparison with the source's `check_and_update`, which purges
timestamps whose age is at least the window. -/
def RateLimit.check_and_update_claimed (rl : RateLimit) (now : Nat) :
    Bool × RateLimit :=
  let kept := rl.calls.filter (fun t => ¬ (t < now - rl.window))
  if kept.length < rl.max_calls then
    (true, { rl with calls := kept ++ [now] })
  else
    (false, { rl with calls := kept })

/-- Counterexample for C5: with window 1 and one call admitted at t=0, a
check at t=1 concerns the boundary timestamp aged exactly one window:
the code purges it and admits, while the claim's purge rule ("older than
now − window") keeps it and denies.  So the claimed purge rule differs
from the code, and a closed interval of length exactly `window` can
contain `max_calls + 1` admissions. -/
theorem rate_limit_boundary_counterexample :
    (RateLimit.new 1 1).check_and_update 0 = (true, ⟨1, 1, [0]⟩)
    ∧ (RateLimit.mk 1 1 [0]).check_and_update 1 = (true, ⟨1, 1, [1]⟩)
    ∧ (RateLimit.mk 1 1 [0]).check_and_update_claimed 1 = (false, ⟨1, 1, [0]⟩)
    ∧ (RateLimit.mk 1 1 [0]).check_and_update 1 ≠
        (RateLimit.mk 1 1 [0]).check_and_update_claimed 1 := by
  refine ⟨by decide, by decide, by decide, by decide⟩

lemma check_and_update_accept (rl : RateLimit) (t : Nat)
    (h : (rl.calls.filter (fun x => decide (t - x < rl.window))).length <
      rl.max_calls) :
    rl.check_and_update t =
      (true, { rl with
        calls := rl.calls.filter (fun x => decide (t - x < rl.window)) ++ [t] }) := by
  simp only [RateLimit.check_and_update]
  rw [if_pos h]

lemma check_and_update_deny (rl : RateLimit) (t : Nat)
    (h : ¬ (rl.calls.filter (fun x => decide (t - x < rl.window))).length <
      rl.max_calls) :
    rl.check_and_update t =
      (false, { rl with
        calls := rl.calls.filter (fun x => decide (t - x < rl.window)) }) := by
  simp only [RateLimit.check_and_update]
  rw [if_neg h]

lemma filter_length_mono (l : List Nat) (p q : Nat → Bool)
    (h : ∀ x ∈ l, p x = true → q x = true) :
    (l.filter p).length ≤ (l.filter q).length := by
  induction l with
  | nil => simp
  | cons a l ih =>
    simp only [List.filter_cons]
    by_cases hp : p a = true
    · rw [if_pos hp, if_pos (h a (by simp) hp)]
      simpa using ih (fun x hx hpx => h x (by simp [hx]) hpx)
    · rw [if_neg hp]
      split_ifs with hq
      · exact le_trans (ih (fun x hx hpx => h x (by simp [hx]) hpx)) (by simp)
      · exact ih (fun x hx hpx => h x (by simp [hx]) hpx)

lemma runChecks_cons (rl : RateLimit) (t : Nat) (ts : List Nat) :
    rl.runChecks (t :: ts) =
      ((rl.check_and_update t).1 ::
        (RateLimit.runChecks (rl.check_and_update t).2 ts).1,
       (RateLimit.runChecks (rl.check_and_update t).2 ts).2) := rfl

/-- The sliding-window invariant, by induction along the run: `adm` is
the list of admitted timestamps so far, all at most `lt` (the last check
instant); the stored `calls` are exactly the admitted times younger than
one window at `lt`; and at every anchor `s`, at most `max_calls`
admitted times lie in the half-open window `(s - window, s]`. -/
lemma runChecks_window_bound (w : Nat) (hw : 0 < w) :
    ∀ (ts adm : List Nat) (lt : Nat) (rl : RateLimit),
      rl.window = w →
      rl.calls = adm.filter (fun x => decide (lt - x < w)) →
      (∀ a ∈ adm, a ≤ lt) →
      ts.Pairwise (· ≤ ·) →
      (∀ t ∈ ts, lt ≤ t) →
      (∀ s, (adm.filter
          (fun x => decide (s - x < w) && decide (x ≤ s))).length ≤
        rl.max_calls) →
      ∀ s, ((ts.zip (rl.runChecks ts).1).filter
          (fun p => p.2 && (decide (s - p.1 < w) && decide (p.1 ≤ s)))).length
        + (adm.filter
            (fun x => decide (s - x < w) && decide (x ≤ s))).length
        ≤ rl.max_calls := by
  intro ts
  induction ts with
  | nil =>
    intro adm lt rl hwin hcalls hle hpw hlt hbound s
    simpa using hbound s
  | cons t ts ih =>
    intro adm lt rl hwin hcalls hle hpw hlt hbound s
    have hltt : lt ≤ t := hlt t (by simp)
    have hkept : rl.calls.filter (fun x => decide (t - x < rl.window)) =
        adm.filter (fun x => decide (t - x < w)) := by
      rw [hwin, hcalls, List.filter_filter]
      refine List.filter_congr (fun a _ => ?_)
      by_cases hta : t - a < w
      · have h1 : lt - a < w := lt_of_le_of_lt (Nat.sub_le_sub_right hltt a) hta
        simp [hta, h1]
      · simp [hta]
    have hpw' : ts.Pairwise (· ≤ ·) := hpw.of_cons
    have hts : ∀ u ∈ ts, t ≤ u := fun u hu => List.rel_of_pairwise_cons hpw hu
    by_cases hadm :
        (adm.filter (fun x => decide (t - x < w))).length < rl.max_calls
    · -- admitted: timestamp t is pushed
      have hstep := check_and_update_accept rl t (by rw [hkept]; exact hadm)
      have hnew : (rl.calls.filter (fun x => decide (t - x < rl.window)) ++ [t]) =
          (adm ++ [t]).filter (fun x => decide (t - x < w)) := by
        rw [hkept, List.filter_append, List.filter_singleton]
        simp [Nat.sub_self, hw]
      have hbound' : ∀ s',
          ((adm ++ [t]).filter
            (fun x => decide (s' - x < w) && decide (x ≤ s'))).length ≤
          rl.max_calls := by
        intro s'
        rw [List.filter_append, List.length_append, List.filter_singleton]
        by_cases hPt : (decide (s' - t < w) && decide (t ≤ s')) = true
        · rw [hPt]
          have hts' : t ≤ s' := by
            simp only [Bool.and_eq_true, decide_eq_true_eq] at hPt
            exact hPt.2
          have hmono : (adm.filter
              (fun x => decide (s' - x < w) && decide (x ≤ s'))).length ≤
              (adm.filter (fun x => decide (t - x < w))).length := by
            refine filter_length_mono adm _ _ (fun x hx hpx => ?_)
            simp only [Bool.and_eq_true, decide_eq_true_eq] at hpx
            have hsub : t - x ≤ s' - x := Nat.sub_le_sub_right hts' x
            simp [lt_of_le_of_lt hsub hpx.1]
          simp only [cond_true, List.length_singleton]
          omega
        · simp only [Bool.not_eq_true] at hPt
          rw [hPt]
          simp only [cond_false, List.length_nil, Nat.add_zero]
          exact hbound s'
      have hrec := ih (adm ++ [t]) t ((rl.check_and_update t).2)
        (by rw [hstep]; exact hwin)
        (by rw [hstep]; exact hnew)
        (fun a ha => by
          rcases List.mem_append.mp ha with h | h
          · exact le_trans (hle a h) hltt
          · simp only [List.mem_singleton] at h
            exact h ▸ le_refl t)
        hpw' hts
        (fun s' => by rw [hstep]; exact hbound' s')
      rw [hstep] at hrec
      dsimp only at hrec
      rw [runChecks_cons]
      simp only [hstep]
      rw [List.zip_cons_cons, List.filter_cons]
      by_cases hPt : (decide (s - t < w) && decide (t ≤ s)) = true
      · rw [if_pos (by simpa using hPt)]
        have h2 := hrec s
        have h3 : ((adm ++ [t]).filter
            (fun x => decide (s - x < w) && decide (x ≤ s))).length =
            (adm.filter
              (fun x => decide (s - x < w) && decide (x ≤ s))).length + 1 := by
          rw [List.filter_append, List.length_append, List.filter_singleton, hPt]
          simp only [cond_true, List.length_singleton]
        rw [h3] at h2
        simp only [List.length_cons]
        omega
      · rw [if_neg (by simpa using hPt)]
        have h2 := hrec s
        have h3 : ((adm ++ [t]).filter
            (fun x => decide (s - x < w) && decide (x ≤ s))).length =
            (adm.filter
              (fun x => decide (s - x < w) && decide (x ≤ s))).length := by
          simp only [Bool.not_eq_true] at hPt
          rw [List.filter_append, List.length_append, List.filter_singleton, hPt]
          simp only [cond_false, List.length_nil, Nat.add_zero]
        rw [h3] at h2
        exact h2
    · -- denied: only the purge takes effect
      have hstep := check_and_update_deny rl t (by rw [hkept]; exact hadm)
      have hrec := ih adm t ((rl.check_and_update t).2)
        (by rw [hstep]; exact hwin)
        (by rw [hstep]; exact hkept)
        (fun a ha => le_trans (hle a ha) hltt)
        hpw' hts
        (fun s' => by rw [hstep]; exact hbound s')
      rw [hstep] at hrec
      dsimp only at hrec
      rw [runChecks_cons]
      simp only [hstep]
      rw [List.zip_cons_cons, List.filter_cons, if_neg (by simp)]
      exact hrec s

end Hooks

namespace Hooks

/-- C5 (amended): every rate-limit check first removes the recorded
timestamps whose age is *at least* the window (i.e. at or before
`now − window`, one boundary instant more than the claim's "older
than"), then admits iff fewer than `max_calls` timestamps remain,
appending `now` on admission; a check made while `max_calls` recorded
timestamps are still strictly within the window is denied; over any
monotone run of checks started fresh, at most `max_calls` admissions lie
in any half-open window `(s − window, s]`; and a denied check makes
`execute` abort with `RateLimitExceeded` carrying the handler name,
limit and window. -/
theorem rate_limit_sliding_window :
    (∀ (rl : RateLimit) (now : Nat),
      ((rl.check_and_update now).1 = true ↔
        (rl.calls.filter (fun t => now - t < rl.window)).length < rl.max_calls)
      ∧ (rl.check_and_update now).2.calls =
          rl.calls.filter (fun t => now - t < rl.window) ++
            (if (rl.calls.filter (fun t => now - t < rl.window)).length <
                rl.max_calls then [now] else []))
    ∧ (∀ (rl : RateLimit) (now : Nat),
        (∀ t ∈ rl.calls, now - t < rl.window) →
        rl.max_calls ≤ rl.calls.length →
        (rl.check_and_update now).1 = false)
    ∧ (∀ (mx w : Nat), 0 < w → ∀ ts : List Nat, ts.Pairwise (· ≤ ·) →
        ∀ s, ((ts.zip ((RateLimit.new mx w).runChecks ts).1).filter
          (fun p => p.2 && (decide (s - p.1 < w) && decide (p.1 ≤ s)))).length
          ≤ mx)
    ∧ (∀ (gt now : Nat) (ht : HookType) (n : String) (rest : List String)
        (data : Json) (st : FireState) (e : HandlerEntry) (rl : RateLimit),
        lookupEntry st.entries n = some e → e.enabled = true →
        e.rate_limit = some rl → (rl.check_and_update now).1 = false →
        execLoop gt now ht (n :: rest) data st =
          (.error (.rateLimitExceeded n rl.max_calls rl.window),
           { st with entries :=
              (updateEntry st.entries n
                { e with rate_limit := some (rl.check_and_update now).2 }) })) := by
  refine ⟨fun rl now => ?_, fun rl now h1 h2 => ?_,
    fun mx w hw ts hpw s => ?_,
    fun gt now ht n rest data st e rl hl hen hrl hdeny => ?_⟩
  · by_cases h : (rl.calls.filter
        (fun t => decide (now - t < rl.window))).length < rl.max_calls
    · rw [check_and_update_accept rl now h]
      exact ⟨⟨fun _ => h, fun _ => rfl⟩, by rw [if_pos h]⟩
    · rw [check_and_update_deny rl now h]
      exact ⟨⟨fun hf => Bool.noConfusion hf, fun hc => absurd hc h⟩,
        by rw [if_neg h]; simp⟩
  · have hfull : rl.calls.filter (fun t => decide (now - t < rl.window)) =
        rl.calls :=
      List.filter_eq_self.mpr (fun a ha => by simpa using h1 a ha)
    rw [check_and_update_deny rl now (by rw [hfull]; omega)]
  · simpa using runChecks_window_bound w hw ts [] 0 (RateLimit.new mx w)
      rfl rfl (by simp) hpw (by simp) (by simp) s
  · simp only [execLoop, execStep, hl, hen, hrl, hdeny]
    rfl

/-- Witness for C5's amended theorem: a concrete admission, a concrete
full-window denial, a concrete two-check run staying within the bound,
and a concrete fire aborted with `RateLimitExceeded`. -/
theorem rate_limit_sliding_window_witness :
    ((RateLimit.mk 3 100 [5]).check_and_update 50).1 = true
    ∧ ((RateLimit.mk 1 10 [5]).check_and_update 6).1 = false
    ∧ ((([0, 1].zip ((RateLimit.new 1 1).runChecks [0, 1]).1).filter
        (fun p => p.2 && (decide (1 - p.1 < 1) && decide (p.1 ≤ 1)))).length
        ≤ 1)
    ∧ execLoop 1 9 .serverStartup ["q"] .null
        (FireState.ofEntries [("q",
          ⟨skipSpecC10, 500, {}, true, some ⟨0, 5, []⟩⟩)]) =
      (.error (.rateLimitExceeded "q" 0 5),
       { FireState.ofEntries [("q",
            ⟨skipSpecC10, 500, {}, true, some ⟨0, 5, []⟩⟩)] with
         entries := updateEntry
           (FireState.ofEntries [("q",
             ⟨skipSpecC10, 500, {}, true, some ⟨0, 5, []⟩⟩)]).entries "q"
           ⟨skipSpecC10, 500, {}, true,
            some ((RateLimit.mk 0 5 []).check_and_update 9).2⟩ }) :=
  ⟨(rate_limit_sliding_window.1 (RateLimit.mk 3 100 [5]) 50).1.mpr (by decide),
   rate_limit_sliding_window.2.1 (RateLimit.mk 1 10 [5]) 6
     (by decide) (by decide),
   rate_limit_sliding_window.2.2.1 1 1 (by decide) [0, 1] (by decide) 1,
   rate_limit_sliding_window.2.2.2 1 9 .serverStartup "q" [] .null
     (FireState.ofEntries [("q",
       ⟨skipSpecC10, 500, {}, true, some ⟨0, 5, []⟩⟩)])
     ⟨skipSpecC10, 500, {}, true, some ⟨0, 5, []⟩⟩
     ⟨0, 5, []⟩ rfl rfl rfl (by decide)⟩

end Hooks

namespace Hooks

/-- The `Replace` payload of a completed handler result, if any. -/
def replaceValue : ExecutionResult → Option Json
  | .replace d => some d
  | _ => none

def isStop : ExecutionResult → Bool
  | .stop _ => true
  | _ => false

/-- What C3 asserts of an error-free fire: writing `tr` for the sequence
of completed handler results, either no handler returned `Stop` and the
final data is the last `Replace` value (the input if none), or the trace
ends at a `Stop(d?)` — no later handler ran — and the final data is `d`
when present, otherwise the data current at that point (the last
`Replace` value before the `Stop`, or the input). -/
def okSpec (input : Json) (tr : List ExecutionResult) (d : Json) : Prop :=
  (tr.all (fun r => !isStop r) = true ∧
    d = ((tr.filterMap replaceValue).getLast?).getD input)
  ∨ (∃ tr₁ dopt, tr = tr₁ ++ [.stop dopt] ∧
      tr₁.all (fun r => !isStop r) = true ∧
      d = dopt.getD (((tr₁.filterMap replaceValue).getLast?).getD input))

lemma getLast?_cons_getD (x a : Json) (l : List Json) :
    ((x :: l).getLast?).getD a = (l.getLast?).getD x := by
  cases l with
  | nil => rfl
  | cons y ys =>
    rw [List.getLast?_cons_cons]
    cases h : (y :: ys).getLast? with
    | none => simp at h
    | some z => rfl

lemma okSpec_cons_neutral (input : Json) (r : ExecutionResult)
    (new : List ExecutionResult) (d : Json)
    (hs : isStop r = false) (hr : replaceValue r = none)
    (h : okSpec input new d) : okSpec input (r :: new) d := by
  rcases h with ⟨h1, h2⟩ | ⟨tr₁, dopt, h1, h2, h3⟩
  · exact Or.inl ⟨by simp [h1, hs], by simpa [List.filterMap_cons, hr] using h2⟩
  · exact Or.inr ⟨r :: tr₁, dopt, by simp [h1], by simp [h2, hs],
      by simpa [List.filterMap_cons, hr] using h3⟩

lemma okSpec_cons_replace (input dnew : Json)
    (new : List ExecutionResult) (d : Json)
    (h : okSpec dnew new d) : okSpec input (.replace dnew :: new) d := by
  rcases h with ⟨h1, h2⟩ | ⟨tr₁, dopt, h1, h2, h3⟩
  · refine Or.inl ⟨by rw [List.all_cons, h1]; rfl, ?_⟩
    rw [List.filterMap_cons]
    simp only [replaceValue]
    rw [getLast?_cons_getD]
    exact h2
  · refine Or.inr ⟨.replace dnew :: tr₁, dopt, by simp [h1],
      by rw [List.all_cons, h2]; rfl, ?_⟩
    rw [List.filterMap_cons]
    simp only [replaceValue]
    rw [getLast?_cons_getD]
    exact h3

/-- Classification of one loop iteration, as seen by the trace. -/
lemma runHandler_classify (gt now : Nat) (ht : HookType) (n : String)
    (e : HandlerEntry) (data : Json) (st : FireState) :
    (∃ st₂, runHandler gt now ht n e data st = .proceed data st₂ ∧
      st₂.trace = st.trace)
    ∨ (∃ st₂ r, runHandler gt now ht n e data st = .proceed data st₂ ∧
        st₂.trace = st.trace ++ [r] ∧ isStop r = false ∧ replaceValue r = none)
    ∨ (∃ st₂ dnew, runHandler gt now ht n e data st = .proceed dnew st₂ ∧
        st₂.trace = st.trace ++ [.replace dnew])
    ∨ (∃ st₂ dopt, runHandler gt now ht n e data st =
          .halt (.ok (dopt.getD data)) st₂ ∧
        st₂.trace = st.trace ++ [.stop dopt])
    ∨ (∃ st₂ e0, runHandler gt now ht n e data st = .halt (.error e0) st₂) := by
  unfold runHandler
  cases hsr : e.handler.shouldRun data with
  | false =>
    exact Or.inl ⟨{ st with events := st.events ++ [LifeEvent.skipped n] },
      rfl, rfl⟩
  | true =>
    simp only [Bool.true_eq_false, if_false]
    cases hex : e.handler.exec data with
    | ok r =>
      cases r with
      | continue_ =>
        exact Or.inr (Or.inl ⟨_, .continue_, rfl, rfl, rfl, rfl⟩)
      | stop dopt =>
        exact Or.inr (Or.inr (Or.inr (Or.inl ⟨_, dopt, rfl, rfl⟩)))
      | replace dnew =>
        exact Or.inr (Or.inr (Or.inl ⟨_, dnew, rfl, rfl⟩))
      | retry a b =>
        exact Or.inr (Or.inl ⟨_, .retry a b, rfl, rfl, rfl, rfl⟩)
      | error msg det =>
        exact Or.inr (Or.inr (Or.inr (Or.inr ⟨_, _, rfl⟩)))
    | err e0 => exact Or.inr (Or.inr (Or.inr (Or.inr ⟨_, e0, rfl⟩)))
    | timedOut => exact Or.inr (Or.inr (Or.inr (Or.inr ⟨_, _, rfl⟩)))

lemma execStep_classify (gt now : Nat) (ht : HookType) (n : String)
    (data : Json) (st : FireState) :
    (∃ st₂, execStep gt now ht n data st = .proceed data st₂ ∧
      st₂.trace = st.trace)
    ∨ (∃ st₂ r, execStep gt now ht n data st = .proceed data st₂ ∧
        st₂.trace = st.trace ++ [r] ∧ isStop r = false ∧ replaceValue r = none)
    ∨ (∃ st₂ dnew, execStep gt now ht n data st = .proceed dnew st₂ ∧
        st₂.trace = st.trace ++ [.replace dnew])
    ∨ (∃ st₂ dopt, execStep gt now ht n data st =
          .halt (.ok (dopt.getD data)) st₂ ∧
        st₂.trace = st.trace ++ [.stop dopt])
    ∨ (∃ st₂ e0, execStep gt now ht n data st = .halt (.error e0) st₂) := by
  unfold execStep
  cases hl : lookupEntry st.entries n with
  | none => exact Or.inl ⟨st, rfl, rfl⟩
  | some e0 =>
    cases hen : e0.enabled with
    | false =>
      exact Or.inl ⟨{ st with events := st.events ++ [LifeEvent.skipped n] },
        by simp [hen], rfl⟩
    | true =>
      simp only [hen, Bool.true_eq_false, if_false]
      cases hrl : e0.rate_limit with
      | some rl =>
        cases hflag : (rl.check_and_update now).1 with
        | false =>
          refine Or.inr (Or.inr (Or.inr (Or.inr
            ⟨{ st with entries :=
                (updateEntry st.entries n
                  { e0 with rate_limit := some (rl.check_and_update now).2 }) },
             .rateLimitExceeded n rl.max_calls rl.window, ?_⟩)))
          simp [hflag, hen]
        | true =>
          simp only [hflag, Bool.true_eq_false, if_false]
          exact runHandler_classify gt now ht n _ data _
      | none => exact runHandler_classify gt now ht n e0 data st

lemma execLoop_ok_spec (gt now : Nat) (ht : HookType) :
    ∀ (names : List String) (data : Json) (st : FireState) (d : Json)
      (st' : FireState),
      execLoop gt now ht names data st = (.ok d, st') →
      ∃ new, st'.trace = st.trace ++ new ∧ okSpec data new d := by
  intro names
  induction names with
  | nil =>
    intro data st d st' h
    simp only [execLoop, Prod.mk.injEq] at h
    refine ⟨[], by simp [← h.2], Or.inl ⟨rfl, ?_⟩⟩
    simpa using (Except.ok.inj h.1).symm
  | cons n rest ih =>
    intro data st d st' h
    unfold execLoop at h
    rcases execStep_classify gt now ht n data st with
      ⟨st₂, heq, htr⟩ | ⟨st₂, r, heq, htr, hs, hr⟩ |
      ⟨st₂, dnew, heq, htr⟩ | ⟨st₂, dopt, heq, htr⟩ | ⟨st₂, e0, heq⟩
    · rw [heq] at h
      obtain ⟨new, htr', hspec⟩ := ih data st₂ d st' h
      exact ⟨new, by rw [htr', htr], hspec⟩
    · rw [heq] at h
      obtain ⟨new, htr', hspec⟩ := ih data st₂ d st' h
      refine ⟨r :: new, ?_, okSpec_cons_neutral data r new d hs hr hspec⟩
      rw [htr', htr]
      simp
    · rw [heq] at h
      obtain ⟨new, htr', hspec⟩ := ih dnew st₂ d st' h
      refine ⟨.replace dnew :: new, ?_,
        okSpec_cons_replace data dnew new d hspec⟩
      rw [htr', htr]
      simp
    · rw [heq] at h
      simp only [Prod.mk.injEq] at h
      refine ⟨[.stop dopt], ?_, Or.inr ⟨[], dopt, rfl, rfl, ?_⟩⟩
      · rw [← h.2, htr]
      · simpa using (Except.ok.inj h.1).symm
    · rw [heq] at h
      simp only [Prod.mk.injEq] at h
      exact absurd h.1 (fun hc => Except.noConfusion hc)

/-- C3: for every fire of `HookManager::execute` that completes without
error, the returned data and the sequence of completed handler results
satisfy `okSpec`: the result is the last executed `Replace` value (the
input if no handler replaced), unless a `Stop(d?)` occurred, in which
case the trace ends at that `Stop` — no later handler of the snapshot
runs — and the result is `d` when present, otherwise the data current at
that point. -/
theorem replace_stop_flow (m : HookManager) (now : Nat) (ht : HookType)
    (data d : Json) (st' : FireState)
    (h : m.execute now ht data = (.ok d, st')) :
    okSpec data st'.trace d := by
  unfold HookManager.execute at h
  by_cases hen : m.enabled = false
  · rw [if_pos hen] at h
    simp only [Prod.mk.injEq] at h
    rw [← h.2]
    exact Or.inl ⟨rfl, by simpa using (Except.ok.inj h.1).symm⟩
  · rw [if_neg hen] at h
    obtain ⟨new, htr, hspec⟩ := execLoop_ok_spec m.global_timeout now ht
      ((lookupNames m.handlers ht).getD []) data
      (FireState.ofEntries m.entries) d st' h
    rw [htr]
    simpa using hspec

/-- The C3 witness scenario: `a` continues, `b` replaces with `2`, `c`
stops with no data, `z` would replace with `9` but never runs. -/
def managerC3 : HookManager :=
  match (HookManager.new.register "a" [.requestReceived]
      ⟨fun _ => true, fun _ => .ok .continue_, fun _ => 1⟩ 100).bind
    (fun m1 => (m1.register "b" [.requestReceived]
      ⟨fun _ => true, fun _ => .ok (.replace (.num 2)), fun _ => 1⟩ 200).bind
    (fun m2 => (m2.register "c" [.requestReceived]
      ⟨fun _ => true, fun _ => .ok (.stop none), fun _ => 1⟩ 300).bind
    (fun m3 => m3.register "z" [.requestReceived]
      ⟨fun _ => true, fun _ => .ok (.replace (.num 9)), fun _ => 1⟩ 400))) with
  | .ok m => m
  | .error _ => HookManager.new

def fireC3 : (Except HookError Json) × FireState :=
  managerC3.execute 0 .requestReceived (.num 1)

/-- Witness for C3 at the concrete four-handler fire: the fire returns
`2` (the last `Replace` before the `Stop`), the trace ends at the `Stop`
and handler `z` never produced events. -/
theorem replace_stop_flow_witness :
    okSpec (.num 1) fireC3.2.trace (.num 2)
    ∧ fireC3.2.trace = [.continue_, .replace (.num 2), .stop none]
    ∧ fireC3.1 = .ok (.num 2)
    ∧ fireC3.2.events =
        [.pre "a", .executing "a", .post "a",
         .pre "b", .executing "b", .post "b",
         .pre "c", .executing "c", .post "c"] :=
  ⟨replace_stop_flow managerC3 0 .requestReceived (.num 1) (.num 2)
      fireC3.2 rfl,
   rfl, rfl, rfl⟩

end Hooks

namespace Hooks

lemma insertByKey_perm (key : String → Nat) (x : String) :
    ∀ l : List String, (insertByKey key x l).Perm (x :: l) := by
  intro l
  induction l with
  | nil => exact List.Perm.refl _
  | cons y ys ih =>
    unfold insertByKey
    split_ifs with h
    · exact ((ih.cons y).trans (List.Perm.swap x y ys)).symm.symm
    · exact List.Perm.refl _

lemma mem_insertByKey (key : String → Nat) (x a : String) (l : List String) :
    a ∈ insertByKey key x l ↔ a = x ∨ a ∈ l := by
  rw [(insertByKey_perm key x l).mem_iff]
  simp

lemma sortByKey_perm (key : String → Nat) (l : List String) :
    (sortByKey key l).Perm l := by
  suffices h : ∀ (l acc : List String),
      (l.foldl (fun acc x => insertByKey key x acc) acc).Perm (acc ++ l) by
    simpa using h l []
  intro l
  induction l with
  | nil => simp [List.Perm.refl]
  | cons x xs ih =>
    intro acc
    simp only [List.foldl_cons]
    refine (ih (insertByKey key x acc)).trans ?_
    refine (List.Perm.append_right xs (insertByKey_perm key x acc)).trans ?_
    exact List.perm_middle.symm

lemma insertByKey_sorted (key : String → Nat) (x : String) :
    ∀ l : List String,
      l.Pairwise (fun a b => key a ≤ key b) →
      (insertByKey key x l).Pairwise (fun a b => key a ≤ key b) := by
  intro l
  induction l with
  | nil => exact fun _ => List.pairwise_singleton _ _
  | cons y ys ih =>
    intro h
    rw [List.pairwise_cons] at h
    unfold insertByKey
    split_ifs with hle
    · rw [List.pairwise_cons]
      refine ⟨fun b hb => ?_, ih h.2⟩
      rcases (mem_insertByKey key x b ys).mp hb with hbx | hby
      · exact hbx ▸ hle
      · exact h.1 b hby
    · rw [List.pairwise_cons]
      refine ⟨fun b hb => ?_, List.pairwise_cons.mpr h⟩
      rcases List.mem_cons.mp hb with hby | hbys
      · exact hby ▸ Nat.le_of_not_le hle
      · exact le_trans (Nat.le_of_not_le hle) (h.1 b hbys)

lemma sortByKey_sorted (key : String → Nat) (l : List String) :
    (sortByKey key l).Pairwise (fun a b => key a ≤ key b) := by
  suffices h : ∀ (l acc : List String),
      acc.Pairwise (fun a b => key a ≤ key b) →
      (l.foldl (fun acc x => insertByKey key x acc) acc).Pairwise
        (fun a b => key a ≤ key b) by
    exact h l [] (List.Pairwise.nil)
  intro l
  induction l with
  | nil => exact fun acc h => h
  | cons x xs ih =>
    intro acc h
    simp only [List.foldl_cons]
    exact ih _ (insertByKey_sorted key x acc h)

lemma insertByKey_append (key : String → Nat) (x : String) :
    ∀ acc : List String, (∀ a ∈ acc, key a ≤ key x) →
      insertByKey key x acc = acc ++ [x] := by
  intro acc
  induction acc with
  | nil => exact fun _ => rfl
  | cons y ys ih =>
    intro h
    unfold insertByKey
    rw [if_pos (h y (by simp))]
    rw [ih (fun a ha => h a (by simp [ha]))]
    rfl

lemma foldl_insert_sorted (key : String → Nat) :
    ∀ (l acc : List String),
      (acc ++ l).Pairwise (fun a b => key a ≤ key b) →
      l.foldl (fun acc x => insertByKey key x acc) acc = acc ++ l := by
  intro l
  induction l with
  | nil => intro acc _; simp
  | cons x xs ih =>
    intro acc h
    simp only [List.foldl_cons]
    have hx : ∀ a ∈ acc, key a ≤ key x := by
      intro a ha
      have := (List.pairwise_append.mp h).2.2
      exact this a ha x (by simp)
    rw [insertByKey_append key x acc hx, ih (acc ++ [x]) (by simpa using h)]
    simp

lemma sortByKey_of_sorted (key : String → Nat) (l : List String)
    (h : l.Pairwise (fun a b => key a ≤ key b)) : sortByKey key l = l := by
  simpa using foldl_insert_sorted key l [] (by simpa using h)

lemma sortByKey_append_one (key : String → Nat) (l : List String) (x : String) :
    sortByKey key (l ++ [x]) = insertByKey key x (sortByKey key l) := by
  unfold sortByKey
  rw [List.foldl_append]
  rfl

lemma insertByKey_filter (key : String → Nat) (x : String) (k : Nat) :
    ∀ l : List String, l.Pairwise (fun a b => key a ≤ key b) →
      (insertByKey key x l).filter (fun a => decide (key a = k)) =
        l.filter (fun a => decide (key a = k)) ++
          (if key x = k then [x] else []) := by
  intro l
  induction l with
  | nil =>
    intro _
    by_cases h : key x = k
    · simp [insertByKey, h]
    · simp [insertByKey, h]
  | cons y ys ih =>
    intro h
    rw [List.pairwise_cons] at h
    unfold insertByKey
    by_cases hle : key y ≤ key x
    · rw [if_pos hle, List.filter_cons, List.filter_cons, ih h.2]
      by_cases hy : key y = k
      · simp [hy]
      · simp [hy]
    · rw [if_neg hle]
      by_cases hx : key x = k
      · have hnil : (y :: ys).filter (fun a => decide (key a = k)) = [] := by
          rw [List.filter_eq_nil_iff]
          intro b hb
          have hyb : key y ≤ key b := by
            rcases List.mem_cons.mp hb with hb0 | hb1
            · exact hb0 ▸ le_refl _
            · exact h.1 b hb1
          have hlt : key x < key b :=
            lt_of_lt_of_le (Nat.lt_of_not_le hle) hyb
          simp only [decide_eq_true_eq]
          omega
        rw [List.filter_cons, hnil]
        simp [hx]
      · rw [List.filter_cons]
        simp [hx]

lemma foldl_insert_filter (key : String → Nat) (k : Nat) :
    ∀ (l acc : List String),
      acc.Pairwise (fun a b => key a ≤ key b) →
      (l.foldl (fun acc x => insertByKey key x acc) acc).filter
        (fun a => decide (key a = k)) =
        acc.filter (fun a => decide (key a = k)) ++
          l.filter (fun a => decide (key a = k)) := by
  intro l
  induction l with
  | nil => intro acc _; simp
  | cons x xs ih =>
    intro acc h
    simp only [List.foldl_cons]
    rw [ih (insertByKey key x acc) (insertByKey_sorted key x acc h),
      insertByKey_filter key x k acc h, List.filter_cons]
    by_cases hx : key x = k
    · simp [hx]
    · simp [hx]

lemma sortByKey_filter (key : String → Nat) (l : List String) (k : Nat) :
    (sortByKey key l).filter (fun a => decide (key a = k)) =
      l.filter (fun a => decide (key a = k)) := by
  simpa using foldl_insert_filter key k l [] List.Pairwise.nil

lemma insertByKey_congr (key₁ key₂ : String → Nat) (x : String)
    (hx : key₁ x = key₂ x) :
    ∀ l : List String, (∀ a ∈ l, key₁ a = key₂ a) →
      insertByKey key₁ x l = insertByKey key₂ x l := by
  intro l
  induction l with
  | nil => exact fun _ => rfl
  | cons y ys ih =>
    intro h
    unfold insertByKey
    rw [h y (by simp), hx]
    split_ifs with hle
    · rw [ih (fun a ha => h a (by simp [ha]))]
    · rfl

lemma sortByKey_congr (key₁ key₂ : String → Nat) :
    ∀ l : List String, (∀ a ∈ l, key₁ a = key₂ a) →
      sortByKey key₁ l = sortByKey key₂ l := by
  suffices hgen : ∀ (l acc : List String), (∀ a ∈ l, key₁ a = key₂ a) →
      (∀ a ∈ acc, key₁ a = key₂ a) →
      l.foldl (fun acc x => insertByKey key₁ x acc) acc =
        l.foldl (fun acc x => insertByKey key₂ x acc) acc by
    exact fun l h => hgen l [] h (by simp)
  intro l
  induction l with
  | nil => intro acc _ _; rfl
  | cons x xs ih =>
    intro acc h hacc
    simp only [List.foldl_cons]
    rw [insertByKey_congr key₁ key₂ x (h x (by simp)) acc hacc]
    refine ih _ (fun a ha => h a (by simp [ha])) (fun a ha => ?_)
    rcases (mem_insertByKey key₂ x a acc).mp ha with h1 | h2
    · exact h1 ▸ h x (by simp)
    · exact hacc a h2

end Hooks

namespace Hooks

/-- The entry `register` builds for one registration request. -/
def mkEntry (hs : String → HandlerSpec) (r : String × Nat) :
    String × HandlerEntry :=
  (r.1, ⟨hs r.1, r.2, {}, true, none⟩)

/-- A sequence of `register` calls (all on the single hook type `ht`),
failing as a whole when one fails. -/
def registerSeq (hs : String → HandlerSpec) (ht : HookType) :
    HookManager → List (String × Nat) → Option HookManager
  | m, [] => some m
  | m, (n, p) :: rest =>
    match m.register n [ht] (hs n) p with
    | .ok m' => registerSeq hs ht m' rest
    | .error _ => none

lemma lookupEntry_append_left (l l' : List (String × HandlerEntry))
    (a : String) (x : HandlerEntry) (h : lookupEntry l a = some x) :
    lookupEntry (l ++ l') a = some x := by
  induction l with
  | nil => exact absurd h (by simp [lookupEntry])
  | cons kv rest ih =>
    obtain ⟨k, e⟩ := kv
    rw [List.cons_append]
    unfold lookupEntry at h ⊢
    by_cases hk : k = a
    · rwa [if_pos hk] at h ⊢
    · rw [if_neg hk] at h ⊢
      exact ih h

lemma lookup_isSome_of_mem_keys (l : List (String × HandlerEntry))
    (a : String) (h : a ∈ l.map Prod.fst) :
    (lookupEntry l a).isSome = true := by
  induction l with
  | nil => simp at h
  | cons kv rest ih =>
    obtain ⟨k, e⟩ := kv
    unfold lookupEntry
    by_cases hk : k = a
    · rw [if_pos hk]; rfl
    · rw [if_neg hk]
      rcases List.mem_cons.mp h with h0 | h1
    
      · exact absurd h0.symm hk
      · exact ih h1

lemma lookupNames_setNames_self (hl : List (HookType × List String))
    (ht : HookType) (v : List String) :
    lookupNames (setNames hl ht v) ht = some v := by
  induction hl with
  | nil => simp [setNames, lookupNames]
  | cons kv rest ih =>
    obtain ⟨t, l0⟩ := kv
    unfold setNames
    by_cases htt : t = ht
    · rw [if_pos htt]
      unfold lookupNames
      rw [if_pos htt]
    · rw [if_neg htt]
      unfold lookupNames
      rw [if_neg htt]
      exact ih

/-- The registry invariant maintained by successful registrations on
hook type `ht`: the entry map is exactly the registered list, and the
stored name list is the registration-ordered names stably sorted by
their registered priority. -/
def RegInv (hs : String → HandlerSpec) (ht : HookType)
    (regs0 : List (String × Nat)) (m : HookManager) : Prop :=
  m.entries = regs0.map (mkEntry hs)
  ∧ (lookupNames m.handlers ht).getD [] =
      sortByKey (priorityKey m.entries) (regs0.map Prod.fst)

lemma registerSeq_inv (hs : String → HandlerSpec) (ht : HookType) :
    ∀ (regs regs0 : List (String × Nat)) (m0 m : HookManager),
      RegInv hs ht regs0 m0 → registerSeq hs ht m0 regs = some m →
      RegInv hs ht (regs0 ++ regs) m := by
  intro regs
  induction regs with
  | nil =>
    intro regs0 m0 m hinv h
    simp only [registerSeq, Option.some.injEq] at h
    simpa using h ▸ hinv
  | cons np rest ih =>
    intro regs0 m0 m hinv h
    obtain ⟨n, p⟩ := np
    unfold registerSeq at h
    unfold HookManager.register at h
    by_cases hdup : (lookupEntry m0.entries n).isSome = true
    · rw [if_pos hdup] at h
      exact absurd h (by simp)
    · rw [if_neg hdup] at h
      simp only [List.foldl_cons, List.foldl_nil] at h
      set entries1 := m0.entries ++
        [(n, { handler := hs n, priority := p, stats := {},
               enabled := true, rate_limit := none })] with hent
      set cur := (lookupNames m0.handlers ht).getD [] with hcur
      have hkey : ∀ a ∈ regs0.map Prod.fst,
          priorityKey entries1 a = priorityKey m0.entries a := by
        intro a ha
        have hmem : a ∈ m0.entries.map Prod.fst := by
          rw [hinv.1]
          simpa [mkEntry] using ha
        obtain ⟨x, hx⟩ := Option.isSome_iff_exists.mp
          (lookup_isSome_of_mem_keys m0.entries a hmem)
        unfold priorityKey
        rw [hx, lookupEntry_append_left m0.entries _ a x hx]
      have hsorted0 : cur.Pairwise
          (fun a b => priorityKey m0.entries a ≤ priorityKey m0.entries b) := by
        rw [hcur, hinv.2]
        exact sortByKey_sorted _ _
      have hmemcur : ∀ a ∈ cur, a ∈ regs0.map Prod.fst := by
        intro a ha
        rw [hcur, hinv.2] at ha
        exact (sortByKey_perm _ _).mem_iff.mp ha
      have hsorted1 : cur.Pairwise
          (fun a b => priorityKey entries1 a ≤ priorityKey entries1 b) := by
        refine hsorted0.imp_of_mem (fun ha hb hab => ?_)
        rw [hkey _ (hmemcur _ ha), hkey _ (hmemcur _ hb)]
        exact hab
      have hlist : sortByKey (priorityKey entries1) (cur ++ [n]) =
          sortByKey (priorityKey entries1)
            (regs0.map Prod.fst ++ [n]) := by
        rw [sortByKey_append_one, sortByKey_append_one,
          sortByKey_of_sorted _ cur hsorted1]
        congr 1
        rw [hcur, hinv.2]
        exact sortByKey_congr _ _ _ (fun a ha => (hkey a ha).symm)
      have hinv1 : RegInv hs ht (regs0 ++ [(n, p)])
          { handlers :=
              (setNames m0.handlers ht
                (sortByKey (priorityKey entries1) (cur ++ [n]))),
            entries := entries1,
            global_timeout := m0.global_timeout, enabled := m0.enabled } := by
        constructor
        · simp [hent, hinv.1, mkEntry]
        · show (lookupNames (setNames m0.handlers ht _) ht).getD [] = _
          rw [lookupNames_setNames_self]
          show sortByKey (priorityKey entries1) (cur ++ [n]) = _
          rw [hlist]
          simp
      have := ih (regs0 ++ [(n, p)]) _ m hinv1 h
      simpa using this
end Hooks

namespace Hooks

lemma lookupEntry_updateEntry_same :
    ∀ (l : List (String × HandlerEntry)) (n : String) (e e' : HandlerEntry),
      lookupEntry l n = some e →
      lookupEntry (updateEntry l n e') n = some e' := by
  intro l
  induction l with
  | nil => intro n e e' h; simp [lookupEntry] at h
  | cons kv rest ih =>
    intro n e e' h
    obtain ⟨k, x⟩ := kv
    simp only [lookupEntry] at h
    simp only [updateEntry]
    by_cases hk : k = n
    · rw [if_pos hk]
      simp only [lookupEntry]
      rw [if_pos hk]
    · rw [if_neg hk] at h
      rw [if_neg hk]
      simp only [lookupEntry]
      rw [if_neg hk]
      exact ih n e e' h

lemma lookupEntry_updateEntry_other :
    ∀ (l : List (String × HandlerEntry)) (n : String) (e' : HandlerEntry)
      (m : String), m ≠ n →
      lookupEntry (updateEntry l n e') m = lookupEntry l m := by
  intro l
  induction l with
  | nil => intro n e' m _; rfl
  | cons kv rest ih =>
    intro n e' m hmn
    obtain ⟨k, x⟩ := kv
    simp only [updateEntry]
    by_cases hk : k = n
    · rw [if_pos hk]
      have hkm : ¬k = m := fun hkm => hmn (by rw [← hkm]; exact hk)
      simp only [lookupEntry]
      rw [if_neg hkm, if_neg hkm]
    · rw [if_neg hk]
      simp only [lookupEntry]
      by_cases hkm : k = m
      · rw [if_pos hkm, if_pos hkm]
      · rw [if_neg hkm, if_neg hkm]
        exact ih n e' m hmn

/-- The lifecycle events produced by a fire in which every handler runs
and continues. -/
def preExecPostEvents (names : List String) : List LifeEvent :=
  (names.map
    (fun n => [LifeEvent.pre n, LifeEvent.executing n, LifeEvent.post n])).flatten

lemma execLoop_all_continue (gt now : Nat) (ht : HookType) :
    ∀ (names : List String) (data : Json) (st : FireState),
      (∀ n ∈ names, ∃ e, lookupEntry st.entries n = some e ∧
        e.enabled = true ∧ e.rate_limit = none ∧
        e.handler.shouldRun data = true ∧
        e.handler.exec data = .ok .continue_) →
      (execLoop gt now ht names data st).2.events =
        st.events ++ preExecPostEvents names := by
  intro names
  induction names with
  | nil => intro data st _; simp [execLoop, preExecPostEvents]
  | cons n rest ih =>
    intro data st hspec
    obtain ⟨e, hl, hen, hrl, hsr, hex⟩ := hspec n (by simp)
    have hstep : execLoop gt now ht (n :: rest) data st =
        execLoop gt now ht rest data
          { st with
            entries :=
              (updateEntry st.entries n
                { e with stats :=
                    e.stats.record_success (e.handler.duration data) now }),
            events :=
              (st.events ++ [LifeEvent.pre n, LifeEvent.executing n]) ++
                [LifeEvent.post n],
            history :=
              st.history ++
                [HistEntry.mk ht n (e.handler.duration data) "success"],
            trace := st.trace ++ [ExecutionResult.continue_] } := by
      simp only [execLoop, execStep, runHandler, hl, hen, hrl, hsr, hex]
      rfl
    rw [hstep, ih data _ ?_]
    · simp [preExecPostEvents]
    · intro n' hn'
      obtain ⟨e', hl', hen', hrl', hsr', hex'⟩ := hspec n' (by simp [hn'])
      by_cases hnn : n' = n
      · subst hnn
        have he : e' = e := by
          rw [hl'] at hl
          exact Option.some.inj hl
        subst he
        exact ⟨{ e' with stats :=
            e'.stats.record_success (e'.handler.duration data) now },
          lookupEntry_updateEntry_same st.entries n' e' _ hl', hen', hrl',
          hsr', hex'⟩
      · refine ⟨e', ?_, hen', hrl', hsr', hex'⟩
        rw [lookupEntry_updateEntry_other st.entries n _ n' hnn]
        exact hl'

/-- C4: after any successful sequence of registrations on a hook type,
the stored handler list is sorted by ascending priority; for every
priority value, the handlers holding it appear in registration order
(the sort is stable); and one fire executes the handlers sequentially in
exactly that list order — the `Pre`/`Executing`/`Post` events of an
all-`Continue` fire follow it. -/
theorem priority_order (hs : String → HandlerSpec) (ht : HookType)
    (regs : List (String × Nat)) (m : HookManager)
    (hreg : registerSeq hs ht HookManager.new regs = some m) :
    ((lookupNames m.handlers ht).getD []).Pairwise
      (fun a b => priorityKey m.entries a ≤ priorityKey m.entries b)
    ∧ (∀ p, ((lookupNames m.handlers ht).getD []).filter
        (fun nm => decide (priorityKey m.entries nm = p)) =
        (regs.map Prod.fst).filter
          (fun nm => decide (priorityKey m.entries nm = p)))
    ∧ (∀ (gt now : Nat) (data : Json) (st : FireState),
        (∀ n ∈ (lookupNames m.handlers ht).getD [], ∃ e,
          lookupEntry st.entries n = some e ∧ e.enabled = true ∧
          e.rate_limit = none ∧ e.handler.shouldRun data = true ∧
          e.handler.exec data = .ok .continue_) →
        (execLoop gt now ht ((lookupNames m.handlers ht).getD [])
            data st).2.events =
          st.events ++
            preExecPostEvents ((lookupNames m.handlers ht).getD [])) := by
  have hinv : RegInv hs ht regs m := by
    have h0 : RegInv hs ht [] HookManager.new := ⟨rfl, rfl⟩
    simpa using registerSeq_inv hs ht regs [] HookManager.new m h0 hreg
  refine ⟨?_, fun p => ?_,
    fun gt now data st h => execLoop_all_continue gt now ht _ data st h⟩
  · rw [hinv.2]
    exact sortByKey_sorted _ _
  · rw [hinv.2]
    exact sortByKey_filter _ _ _

/-- The C4 witness registry handlers: always run and always continue. -/
def hsC4 : String → HandlerSpec :=
  fun _ => ⟨fun _ => true, fun _ => .ok .continue_, fun _ => 1⟩

/-- The C4 witness manager: register `b` at priority 200, then `a` at
100, then `c` at 200 — `a` must come first, and `b` before `c` (tie
broken by registration order). -/
def managerC4 : HookManager :=
  match registerSeq hsC4 .toolRegistered HookManager.new
      [("b", 200), ("a", 100), ("c", 200)] with
  | some m => m
  | none => HookManager.new

/-- Witness for C4: on the concrete registry the stored list is sorted
by priority, the priority-200 handlers keep registration order out of
`[b, a, c]`, and the fire's event stream walks the stored list in
order. -/
theorem priority_order_witness :
    ((lookupNames managerC4.handlers .toolRegistered).getD []).Pairwise
      (fun a b =>
        priorityKey managerC4.entries a ≤ priorityKey managerC4.entries b)
    ∧ ((lookupNames managerC4.handlers .toolRegistered).getD []).filter
        (fun nm => decide (priorityKey managerC4.entries nm = 200)) =
        (["b", "a", "c"]).filter
          (fun nm => decide (priorityKey managerC4.entries nm = 200))
    ∧ (execLoop 1 0 .toolRegistered
          ((lookupNames managerC4.handlers .toolRegistered).getD [])
          (.num 7) (FireState.ofEntries managerC4.entries)).2.events =
        (FireState.ofEntries managerC4.entries).events ++
          preExecPostEvents
            ((lookupNames managerC4.handlers .toolRegistered).getD []) :=
  ⟨(priority_order hsC4 .toolRegistered
      [("b", 200), ("a", 100), ("c", 200)] managerC4 rfl).1,
   (priority_order hsC4 .toolRegistered
      [("b", 200), ("a", 100), ("c", 200)] managerC4 rfl).2.1 200,
   (priority_order hsC4 .toolRegistered
      [("b", 200), ("a", 100), ("c", 200)] managerC4 rfl).2.2 1 0 (.num 7)
      (FireState.ofEntries managerC4.entries)
      (by
        intro n hn
        have hn' : n ∈ ["a", "b", "c"] := hn
        fin_cases hn' <;> exact ⟨_, rfl, rfl, rfl, rfl, rfl⟩)⟩

end Hooks
